import Mathlib

/-!
Verification development for the assessment content & scoring pipeline
(`backend/services/generator.py`, `backend/services/llm_client.py`,
`backend/routes/test.py` of the repository).

The Python code is dynamically typed, so we embed Python values as the
inductive type `PyVal` (ints and floats are both modelled as rationals;
text is ASCII-focussed).  Operations that can raise in Python are modelled
in the `Except Unit` monad.  `round(x, 3)` is modelled as rounding to the
nearest multiple of 1/1000 (half up; no theorem below exercises a tie).
-/

/-- Model of a Python value (as relevant to the pipeline). -/
inductive PyVal where
  | none
  | str (s : String)
  | num (q : ℚ)
  | bool (b : Bool)
  | list (l : List PyVal)
  | dict (l : List (String × PyVal))

/-- Python truthiness (`bool(v)`). -/
def pyTruthy : PyVal → Bool
  | .none => false
  | .str s => !s.isEmpty
  | .num q => decide (q ≠ 0)
  | .bool b => b
  | .list l => !l.isEmpty
  | .dict l => !l.isEmpty

/-- Python `a or b`: returns `a` when truthy, otherwise `b`. -/
def pyOr (a b : PyVal) : PyVal := if pyTruthy a then a else b

/-- Python `v == "s"` for a string literal on the right (in Python only a
str compares equal to a str). -/
def pyEqStr (v : PyVal) (s : String) : Bool :=
  match v with
  | .str t => t = s
  | _ => false

/-- Association-list lookup used for Python dicts (first matching key). -/
def assocGet (l : List (String × PyVal)) (k : String) : Option PyVal :=
  (l.find? (fun p => p.1 = k)).map (·.2)

/-- Python `dict.get(k)` (default `None`); raises `AttributeError` on
non-dicts, which we model as `Except.error`. -/
def pyGetE (v : PyVal) (k : String) : Except Unit PyVal :=
  match v with
  | .dict l => .ok ((assocGet l k).getD .none)
  | _ => .error ()

/-- Python `dict.get(k, d)` with an explicit default. -/
def pyGetDE (v : PyVal) (k : String) (d : PyVal) : Except Unit PyVal :=
  match v with
  | .dict l => .ok ((assocGet l k).getD d)
  | _ => .error ()

/-- Insert/overwrite a key in a dict association list (Python dict
assignment: an existing key keeps its position, otherwise append). -/
def assocSet (l : List (String × PyVal)) (k : String) (v : PyVal) :
    List (String × PyVal) :=
  match l with
  | [] => [(k, v)]
  | (k0, v0) :: t => if k0 = k then (k0, v) :: t else (k0, v0) :: assocSet t k v

/-- Python `d[k] = v`; raises on non-dicts. -/
def pySetE (d : PyVal) (k : String) (v : PyVal) : Except Unit PyVal :=
  match d with
  | .dict l => .ok (.dict (assocSet l k v))
  | _ => .error ()

/-- ASCII whitespace as recognised by the model (`strip`, `\s`). -/
def isWs (c : Char) : Bool := c = ' ' ∨ c = '\t' ∨ c = '\n' ∨ c = '\r'

/-- Drop leading whitespace characters. -/
def trimLeftChars (xs : List Char) : List Char := xs.dropWhile isWs

/-- Drop trailing whitespace characters (Python `rstrip`). -/
def trimRightChars : List Char → List Char
  | [] => []
  | c :: t =>
    let r := trimRightChars t
    if r.isEmpty then (if isWs c then [] else [c]) else c :: r

/-- Python `str.strip()` on a character list. -/
def trimChars (xs : List Char) : List Char := trimLeftChars (trimRightChars xs)

/-- Python `str.strip()`. -/
def pyStrip (s : String) : String := String.mk (trimChars s.data)

/-- Python `str.lower()` (ASCII model). -/
def pyLower (s : String) : String := String.mk (s.data.map Char.toLower)

/-- Python `str.upper()` (ASCII model). -/
def pyUpper (s : String) : String := String.mk (s.data.map Char.toUpper)

/-- Characters kept by `re.sub(r"[^\w\s]", "", s)`: word characters
(alphanumeric or underscore) and whitespace. -/
def keepWordWs (c : Char) : Bool := c.isAlphanum ∨ c = '_' ∨ isWs c

/-- Collapse each maximal run of whitespace into a single space
(`re.sub(r"\s+", " ", s)`; does not strip the ends).  The flag records
whether the previous character was whitespace. -/
def collapseWsAux : Bool → List Char → List Char
  | _, [] => []
  | prevWs, c :: t =>
    if isWs c then
      if prevWs then collapseWsAux true t else ' ' :: collapseWsAux true t
    else c :: collapseWsAux false t

/-- `re.sub(r"\s+", " ", s)` on a character list. -/
def collapseWs (xs : List Char) : List Char := collapseWsAux false xs

/-- Substring test, Python `needle in hay` for strings. -/
def strContains (hay needle : String) : Bool :=
  decide (needle.data <:+: hay.data)

/-- Truncation toward zero, Python `int(q)` on a number (via the
computable `Rat.floor`). -/
def truncQ (q : ℚ) : ℤ := if 0 ≤ q then Rat.floor q else -(Rat.floor (-q))

/-- Model of Python `round(x, 3)`: round to the nearest multiple of
1/1000 (half up; no theorem below exercises a tie).  Uses the computable
`Rat.floor` so that concrete values evaluate in the kernel. -/
def round3 (q : ℚ) : ℚ := ((Rat.floor (q * 1000 + 1 / 2) : ℤ) : ℚ) / 1000

/-- Decimal rendering of a rational whose denominator divides a power of
ten (the only numbers the pipeline ever prints); integer-valued
rationals render like Python ints, and other values fall back to a
fraction rendering (never reached by the theorems below). -/
def renderDec (q : ℚ) : String :=
  if q.den = 1 then toString q.num
  else
    match (List.range 28).find? (fun k => (q * (10 : ℚ) ^ (k + 1)).den = 1) with
    | some k =>
      let scaled : ℤ := (q * (10 : ℚ) ^ (k + 1)).num
      let sign := if scaled < 0 then "-" else ""
      let digits := toString scaled.natAbs
      let digits :=
        if digits.length ≤ k + 1 then
          String.mk (List.replicate (k + 2 - digits.length) '0') ++ digits
        else digits
      let cut := digits.length - (k + 1)
      sign ++ (digits.take cut) ++ "." ++ (digits.drop cut)
    | _ => toString q.num ++ "/" ++ toString q.den

mutual
/-- Python `repr(v)` (strings keep quotes; used only inside containers). -/
def pyRepr : PyVal → String
  | .none => "None"
  | .str s => String.singleton (Char.ofNat 39) ++ s ++ String.singleton (Char.ofNat 39)
  | .num q => renderDec q
  | .bool b => if b then "True" else "False"
  | .list l => "[" ++ String.intercalate ", " (reprList l) ++ "]"
  | .dict l => "\x7b" ++ String.intercalate ", " (reprPairs l) ++ "\x7d"

/-- `repr` of the elements of a list. -/
def reprList : List PyVal → List String
  | [] => []
  | v :: t => pyRepr v :: reprList t

/-- `repr` of the pairs of a dict. -/
def reprPairs : List (String × PyVal) → List String
  | [] => []
  | (k, v) :: t =>
    (String.singleton (Char.ofNat 39) ++ k ++ String.singleton (Char.ofNat 39)
      ++ ": " ++ pyRepr v) :: reprPairs t
end

/-- Python `str(v)`. -/
def pyStr : PyVal → String
  | .none => "None"
  | .str s => s
  | .num q => renderDec q
  | .bool b => if b then "True" else "False"
  | .list l => pyRepr (.list l)
  | .dict l => pyRepr (.dict l)

/-- Python `len(v)`; raises `TypeError` on numbers, booleans and `None`. -/
def pyLenE : PyVal → Except Unit ℕ
  | .str s => .ok s.length
  | .list l => .ok l.length
  | .dict l => .ok l.length
  | _ => .error ()

/-- Python iteration `for x in v`: characters of a string (as 1-character
strings), elements of a list, keys of a dict; raises otherwise. -/
def pyIterE : PyVal → Except Unit (List PyVal)
  | .str s => .ok (s.data.map (fun c => .str (String.singleton c)))
  | .list l => .ok l
  | .dict l => .ok (l.map (fun p => .str p.1))
  | _ => .error ()

/-! ## Model of `json.loads` (as used by `llm_client.py` and `test.py`)

A fuel-based recursive-descent parser for JSON (objects, arrays, strings
with escapes, numbers, `true`/`false`/`null`).  The non-standard
`NaN`/`Infinity` extensions accepted by Python are not modelled (no
theorem below depends on them).  Duplicate object keys keep the first
position with the last value, as in Python dicts. -/

/-- Skip JSON whitespace. -/
def skipWs (cs : List Char) : List Char := cs.dropWhile isWs

/-- Value of a hexadecimal digit. -/
def hexDigitVal (c : Char) : Option ℕ :=
  if c.isDigit then some (c.toNat - 48)
  else if 'a' ≤ c ∧ c ≤ 'f' then some (c.toNat - 87)
  else if 'A' ≤ c ∧ c ≤ 'F' then some (c.toNat - 55)
  else Option.none

/-- Single-character JSON escapes. -/
def jsonUnescape (c : Char) : Option Char :=
  if c = '"' then some '"'
  else if c = '\\' then some '\\'
  else if c = '/' then some '/'
  else if c = 'b' then some (Char.ofNat 8)
  else if c = 'f' then some (Char.ofNat 12)
  else if c = 'n' then some '\n'
  else if c = 'r' then some '\r'
  else if c = 't' then some '\t'
  else Option.none

/-- Parse the body of a JSON string literal (after the opening quote). -/
def jString (fuel : ℕ) (acc : List Char) (cs : List Char) :
    Option (String × List Char) :=
  match fuel with
  | 0 => Option.none
  | fuel + 1 =>
    match cs with
    | [] => Option.none
    | c :: t =>
      if c = '"' then some (String.mk acc.reverse, t)
      else if c = '\\' then
        match t with
        | [] => Option.none
        | e :: t2 =>
          if e = 'u' then
            match t2 with
            | a :: b :: c2 :: d :: t3 =>
              match hexDigitVal a, hexDigitVal b, hexDigitVal c2, hexDigitVal d with
              | some ha, some hb, some hc, some hd =>
                jString fuel (Char.ofNat (((ha * 16 + hb) * 16 + hc) * 16 + hd) :: acc) t3
              | _, _, _, _ => Option.none
            | _ => Option.none
          else
            match jsonUnescape e with
            | some ec => jString fuel (ec :: acc) t2
            | Option.none => Option.none
      else jString fuel (c :: acc) t

/-- Numeric value of a digit run. -/
def digitsToNat (ds : List Char) : ℕ :=
  ds.foldl (fun n c => n * 10 + (c.toNat - 48)) 0

/-- Parse a JSON number (sign, integer part without leading zeros,
optional fraction, optional exponent). -/
def jNumber (cs : List Char) : Option (ℚ × List Char) :=
  let signed := match cs with | '-' :: t => (true, t) | _ => (false, cs)
  let neg := signed.1
  let cs1 := signed.2
  let ipart := cs1.takeWhile Char.isDigit
  let cs2 := cs1.dropWhile Char.isDigit
  if ipart.isEmpty then Option.none
  else if 1 < ipart.length ∧ ipart.headD '0' = '0' then Option.none
  else
    let ival : ℚ := (digitsToNat ipart : ℚ)
    let fracState :=
      match cs2 with
      | '.' :: t =>
        let fpart := t.takeWhile Char.isDigit
        if fpart.isEmpty then Option.none
        else some (ival + (digitsToNat fpart : ℚ) / (10 : ℚ) ^ fpart.length,
                   t.dropWhile Char.isDigit)
      | _ => some (ival, cs2)
    match fracState with
    | Option.none => Option.none
    | some (v1, cs3) =>
      let expState :=
        match cs3 with
        | e :: t =>
          if e = 'e' ∨ e = 'E' then
            let signedE := match t with
              | '-' :: t2 => (true, t2)
              | '+' :: t2 => (false, t2)
              | _ => (false, t)
            let epart := signedE.2.takeWhile Char.isDigit
            if epart.isEmpty then Option.none
            else
              let ex : ℤ := if signedE.1 then -(digitsToNat epart : ℤ) else (digitsToNat epart : ℤ)
              some (v1 * (10 : ℚ) ^ ex, signedE.2.dropWhile Char.isDigit)
          else some (v1, cs3)
        | [] => some (v1, cs3)
      match expState with
      | Option.none => Option.none
      | some (v2, cs4) => some ((if neg then -v2 else v2), cs4)

/-- Parser mode: a value, the members of an object (after `{` or a
comma), or the items of an array. -/
inductive JMode where
  | val
  | obj (first : Bool) (acc : List (String × PyVal))
  | arr (acc : List PyVal)

/-- Parse one JSON value / object body / array body (fuel-structural so
that the kernel can evaluate it). -/
def jParse : ℕ → JMode → List Char → Option (PyVal × List Char)
  | 0, _, _ => Option.none
  | fuel + 1, .val, cs =>
    (match skipWs cs with
    | [] => Option.none
    | c :: t =>
      if c = '\x7b' then jParse fuel (.obj true []) t
      else if c = '[' then jParse fuel (.arr []) t
      else if c = '"' then
        match jString fuel [] t with
        | some (s, rest) => some (.str s, rest)
        | Option.none => Option.none
      else if c = 't' then
        match t with
        | 'r' :: 'u' :: 'e' :: rest => some (.bool true, rest)
        | _ => Option.none
      else if c = 'f' then
        match t with
        | 'a' :: 'l' :: 's' :: 'e' :: rest => some (.bool false, rest)
        | _ => Option.none
      else if c = 'n' then
        match t with
        | 'u' :: 'l' :: 'l' :: rest => some (.none, rest)
        | _ => Option.none
      else
        match jNumber (c :: t) with
        | some (q, rest) => some (.num q, rest)
        | Option.none => Option.none)
  | fuel + 1, .obj first acc, cs =>
    (match skipWs cs with
    | '\x7d' :: rest => if first then some (.dict [], rest) else Option.none
    | '"' :: t =>
      match jString fuel [] t with
      | some (k, rest1) =>
        match skipWs rest1 with
        | ':' :: rest2 =>
          match jParse fuel .val rest2 with
          | some (v, rest3) =>
            match skipWs rest3 with
            | ',' :: rest4 => jParse fuel (.obj false (assocSet acc k v)) rest4
            | '\x7d' :: rest4 => some (.dict (assocSet acc k v), rest4)
            | _ => Option.none
          | Option.none => Option.none
        | _ => Option.none
      | Option.none => Option.none
    | _ => Option.none)
  | fuel + 1, .arr acc, cs =>
    (match skipWs cs with
    | ']' :: rest => if acc.isEmpty then some (.list [], rest) else Option.none
    | other =>
      match jParse fuel .val other with
      | some (v, rest1) =>
        match skipWs rest1 with
        | ',' :: rest2 => jParse fuel (.arr (acc ++ [v])) rest2
        | ']' :: rest2 => some (.list (acc ++ [v]), rest2)
        | _ => Option.none
      | Option.none => Option.none)

/-- Model of `json.loads(s)`: parse one value with no trailing garbage. -/
def jsonLoads (s : String) : Option PyVal :=
  match jParse (2 * s.length + 8) .val s.data with
  | some (v, rest) => if (skipWs rest).isEmpty then some v else Option.none
  | Option.none => Option.none

/-- Parse a string accepted by Python `float()` (sign, digits with an
optional dot, optional exponent; `inf`/`nan` are not modelled). -/
def parsePyFloat (s : String) : Option ℚ :=
  let cs := trimChars s.data
  let signed := match cs with
    | '-' :: t => (true, t)
    | '+' :: t => (false, t)
    | _ => (false, cs)
  let ipart := signed.2.takeWhile Char.isDigit
  let cs1 := signed.2.dropWhile Char.isDigit
  let fracState :=
    match cs1 with
    | '.' :: t =>
      let fpart := t.takeWhile Char.isDigit
      if ipart.isEmpty ∧ fpart.isEmpty then Option.none
      else some ((digitsToNat ipart : ℚ) + (digitsToNat fpart : ℚ) / (10 : ℚ) ^ fpart.length,
                 t.dropWhile Char.isDigit)
    | _ =>
      if ipart.isEmpty then Option.none
      else some ((digitsToNat ipart : ℚ), cs1)
  match fracState with
  | Option.none => Option.none
  | some (v1, cs2) =>
    let expState :=
      match cs2 with
      | e :: t =>
        if e = 'e' ∨ e = 'E' then
          let signedE := match t with
            | '-' :: t2 => (true, t2)
            | '+' :: t2 => (false, t2)
            | _ => (false, t)
          let epart := signedE.2.takeWhile Char.isDigit
          if epart.isEmpty then Option.none
          else
            let ex : ℤ := if signedE.1 then -(digitsToNat epart : ℤ) else (digitsToNat epart : ℤ)
            some (v1 * (10 : ℚ) ^ ex, signedE.2.dropWhile Char.isDigit)
        else some (v1, cs2)
      | [] => some (v1, cs2)
    match expState with
    | Option.none => Option.none
    | some (v2, rest) =>
      if rest.isEmpty then some (if signed.1 then -v2 else v2) else Option.none

/-- Python `float(v)`; raises on `None`, containers and unparsable text. -/
def pyFloatE : PyVal → Except Unit ℚ
  | .num q => .ok q
  | .bool b => .ok (if b then 1 else 0)
  | .str s =>
    match parsePyFloat s with
    | some q => .ok q
    | Option.none => .error ()
  | _ => .error ()

/-- Parse a string accepted by Python `int()` (sign and digits only). -/
def parsePyInt (s : String) : Option ℤ :=
  let cs := trimChars s.data
  let signed := match cs with
    | '-' :: t => (true, t)
    | '+' :: t => (false, t)
    | _ => (false, cs)
  if signed.2.isEmpty ∨ ¬ signed.2.all Char.isDigit then Option.none
  else some (if signed.1 then -(digitsToNat signed.2 : ℤ) else (digitsToNat signed.2 : ℤ))

/-- Python `int(v)`; truncates numbers toward zero, parses strings,
raises otherwise. -/
def pyIntE : PyVal → Except Unit ℤ
  | .num q => .ok (truncQ q)
  | .bool b => .ok (if b then 1 else 0)
  | .str s =>
    match parsePyInt s with
    | some n => .ok n
    | Option.none => .error ()
  | _ => .error ()

/-! ## `llm_client._extract_json_from_text` (lines 40-61) -/

/-- The span matched by `re.search(r"(\{.*\})", text, re.DOTALL)`: from
the first opening brace to the last closing brace, provided the first
brace comes before the last closing brace (greedy `.*`). -/
def greedyBraceSpan (cs : List Char) : Option (List Char) :=
  match cs.findIdx? (fun c => c = '\x7b'), cs.reverse.findIdx? (fun c => c = '\x7d') with
  | some i, some jr =>
    let j := cs.length - 1 - jr
    if i < j then some ((cs.drop i).take (j - i + 1)) else Option.none
  | _, _ => Option.none

/-- `_extract_json_from_text` (llm_client.py lines 40-61): empty text
fails; if the stripped text is brace- or bracket-delimited, try to parse
it whole; otherwise (or on parse failure) parse the greedy first-brace
to last-brace span; `None` when nothing parses. -/
def headIs (cs : List Char) (c : Char) : Bool :=
  match cs with
  | x :: _ => x = c
  | [] => false

/-- `s.startswith(c) and s.endswith(d)` for single characters. -/
def delimitedBy (cs : List Char) (c d : Char) : Bool :=
  headIs cs c && headIs cs.reverse d

def extractJsonFromText (text : String) : Option PyVal :=
  if text.isEmpty then Option.none
  else
    let t := pyStrip text
    let quickShape := delimitedBy t.data '\x7b' '\x7d' || delimitedBy t.data '[' ']'
    match (if quickShape then jsonLoads t else Option.none) with
    | some v => some v
    | Option.none =>
      match greedyBraceSpan t.data with
      | some span => jsonLoads (String.mk span)
      | Option.none => Option.none

/-! ## `generator.generate_questions` (generator.py)

The thread pool runs one `_create_one` per task; the only shared mutable
state is the `seen_texts` set, accessed inside `with seen_lock:` blocks.
An execution is therefore modelled as an interleaving (a schedule of task
indices): scheduling task `i` runs its next loop iteration (one attempt,
containing at most one critical section) or, after five attempts, its
forced-variant finalisation.  `generate_question` results (or the `None`
from a caught remote failure) come from a per-task, per-attempt oracle;
`uuid` values come from oracles as well.  `forcedCollision` is ghost
instrumentation recording whether some forced insertion found its
normalized text already present (the code does not check this). -/

/-- One generation task: an entry of `tasks` (generator.py line 31). -/
structure GenTask where
  name : PyVal
  difficulty : PyVal
  qtype : String
  options : PyVal

/-- `dict.items()`; raises on non-dicts. -/
def pyItemsE : PyVal → Except Unit (List (String × PyVal))
  | .dict l => .ok l
  | _ => .error ()

/-- `int(num)` with `except: num = 0` and `max(0, num)` (lines 26-30). -/
def countOfVal (v : PyVal) : ℕ :=
  (match pyIntE v with | .ok n => n | .error _ => 0).toNat

/-- Tasks produced by one skill's `counts.items()` loop (lines 25-31);
`global_settings.get("mcq_options", 4)` is evaluated once per appended
task, so a bad `global_settings` only raises when a task exists. -/
def tasksOfCounts (gsettings : PyVal) (name difficulty : PyVal) :
    List (String × PyVal) → Except Unit (List GenTask)
  | [] => .ok []
  | (qtype, numv) :: t => do
    let cnt := countOfVal numv
    let cur ←
      if cnt = 0 then pure []
      else do
        let opts ← pyGetDE gsettings "mcq_options" (.num 4)
        pure (List.replicate cnt (GenTask.mk name difficulty qtype opts))
    let rest ← tasksOfCounts gsettings name difficulty t
    .ok (cur ++ rest)

/-- Tasks produced by the `for skill in skills` loop (lines 19-31);
skills without a truthy `name` are skipped. -/
def tasksOfSkills (gsettings : PyVal) : List PyVal → Except Unit (List GenTask)
  | [] => .ok []
  | skill :: t => do
    let name ← pyGetE skill "name"
    let cur ←
      if pyTruthy name then do
        let difficulty ← pyGetDE skill "difficulty" (.str "medium")
        let counts0 ← pyGetDE skill "counts" (.dict [])
        let items ← pyItemsE (pyOr counts0 (.dict []))
        tasksOfCounts gsettings name difficulty items
      else pure []
    let rest ← tasksOfSkills gsettings t
    .ok (cur ++ rest)

/-- The flat task list built by `generate_questions` (lines 14-31). -/
def buildTasks (payload : PyVal) : Except Unit (List GenTask) := do
  let skills ← pyGetDE payload "skills" (.list [])
  let gsettings ← pyGetDE payload "global_settings" (.dict [("mcq_options", .num 4)])
  let skillList ← pyIterE skills
  tasksOfSkills gsettings skillList

/-- Total number of requested question instances as the specification
counts them: over the skills whose `name` is truthy, the sum of the
non-negative per-type counts. -/
def skillRequested (skill : PyVal) : ℕ :=
  match pyGetE skill "name" with
  | .error _ => 0
  | .ok name =>
    if pyTruthy name then
      match pyGetDE skill "counts" (.dict []) with
      | .error _ => 0
      | .ok counts0 =>
        match pyItemsE (pyOr counts0 (.dict [])) with
        | .error _ => 0
        | .ok items => (items.map (fun p => countOfVal p.2)).sum
    else 0

/-- Total requested instances of a whole payload. -/
def totalRequested (payload : PyVal) : ℕ :=
  match pyGetDE payload "skills" (.list []) with
  | .error _ => 0
  | .ok skills =>
    match pyIterE skills with
    | .error _ => 0
    | .ok l => (l.map skillRequested).sum

/-- Fallback content substituted when `generate_question` fails or
returns `None` (lines 59-66). -/
def fallbackContent (t : GenTask) : PyVal :=
  if t.qtype = "audio" then
    .dict [("prompt_text", .str ("Describe a situation where you used "
        ++ pyStr t.name ++ " effectively.")), ("type", .str "audio")]
  else if t.qtype = "video" then
    .dict [("prompt_text", .str ("Record a short video explaining a "
        ++ pyStr t.name ++ "-related challenge you solved.")), ("type", .str "video")]
  else
    .dict [("prompt", .str ("Generate a question for " ++ pyStr t.name)),
      ("type", .str t.qtype)]

/-- All-strings check for `str.join`. -/
def listStrsE : List PyVal → Except Unit (List String)
  | [] => .ok []
  | .str s :: t => do
    let rest ← listStrsE t
    .ok (s :: rest)
  | _ => .error ()

/-- Python `sep.join(v)`: raises `TypeError` unless `v` is an iterable of
strings (characters of a string and keys of a dict count). -/
def pyJoinE (sep : String) (v : PyVal) : Except Unit String :=
  match v with
  | .list l => do
    let strs ← listStrsE l
    .ok (String.intercalate sep strs)
  | .str s => .ok (String.intercalate sep (s.data.map String.singleton))
  | .dict l => .ok (String.intercalate sep (l.map (·.1)))
  | _ => .error ()

/-- Representative text of a candidate (lines 68-83).  The mcq branch can
raise: `" ".join(...)` over non-string options is a `TypeError`. -/
def buildRepE (qtype : String) (qData : PyVal) : Except Unit PyVal :=
  match qData with
  | .dict _ =>
    if qtype = "mcq" then do
      let q1 ← pyGetE qData "question"
      let q2 ← pyGetE qData "prompt"
      let q3 ← pyGetE qData "prompt_text"
      let qText := pyOr (pyOr (pyOr q1 q2) q3) (.str "")
      let opts0 ← pyGetDE qData "options" (.list [])
      let optsStr ← pyJoinE " " (pyOr opts0 (.list []))
      .ok (.str (pyStrip (pyStr qText ++ " " ++ optsStr)))
    else if qtype = "coding" then do
      let q1 ← pyGetE qData "question"
      let q2 ← pyGetE qData "prompt"
      let qText := pyOr (pyOr q1 q2) (.str "")
      let i0 ← pyGetDE qData "input_spec" (.str "")
      let o0 ← pyGetDE qData "output_spec" (.str "")
      let iSpec := pyOr i0 (.str "")
      let oSpec := pyOr o0 (.str "")
      .ok (.str (pyStrip (pyStr qText ++ " " ++ pyStr iSpec ++ " " ++ pyStr oSpec)))
    else do
      let q1 ← pyGetE qData "question"
      let q2 ← pyGetE qData "prompt_text"
      let q3 ← pyGetE qData "prompt"
      .ok (pyOr (pyOr (pyOr q1 q2) q3) (.str (pyStr qData)))
  | _ => .ok (.str (pyStr qData))

/-- `_normalize_text` on a character list: lower-case, strip, remove
non-word non-space characters, collapse whitespace runs. -/
def normList (xs : List Char) : List Char :=
  collapseWs ((trimChars (xs.map Char.toLower)).filter keepWordWs)

/-- `_normalize_text` (lines 40-46). -/
def normalizeText (val : PyVal) : String :=
  if pyTruthy val then String.mk (normList (pyStr val).data) else ""

/-- Outcome of one finished task: a question (with the ghost normalized
text recorded for it) or an exception that escaped `_create_one`. -/
inductive TaskOutcome where
  | ok (q : PyVal) (norm : String)
  | raised

/-- Per-task state of the `_create_one` loop. -/
structure TaskState where
  attempts : ℕ
  lastRep : PyVal
  outcome : Option TaskOutcome

/-- Initial task state (`attempts = 0`, `last_rep = None`). -/
def initTaskState : TaskState := ⟨0, .none, Option.none⟩

/-- Global state of one `generate_questions` run. -/
structure GenState where
  seen : List String
  states : List TaskState
  forcedCollision : Bool

/-- Set-semantics insertion into `seen_texts`. -/
def seenInsert (s : String) (seen : List String) : List String :=
  if s ∈ seen then seen else s :: seen

/-- The forced-variant suffix `f" (variant {uuid.uuid4().hex[:6]})"`. -/
def suffixOf (hex : String) : String := " (variant " ++ hex ++ ")"

/-- The question dict returned by `_create_one` (lines 97-103/117-123). -/
def mkQuestion (qid : String) (t : GenTask) (content : PyVal) : PyVal :=
  .dict [("question_id", .str qid), ("skill", t.name), ("type", .str t.qtype),
    ("difficulty", t.difficulty), ("content", content)]

/-- One iteration of the `while attempts < 5` loop (lines 52-103):
take the oracle's `generate_question` outcome (`none` = raised/`None`,
replaced by fallback content), build the representative text (may raise),
normalize, and run the critical section (skip empty or duplicate
normalized text, otherwise insert and return the question). -/
def taskIter (t : GenTask) (qid : String) (qData0 : Option PyVal)
    (seen : List String) (st : TaskState) : List String × TaskState :=
  let qData := match qData0 with | Option.none => fallbackContent t | some v => v
  match buildRepE t.qtype qData with
  | .error _ => (seen, { st with attempts := st.attempts + 1, outcome := some .raised })
  | .ok rep =>
    let norm := normalizeText rep
    let st1 := { st with attempts := st.attempts + 1, lastRep := rep }
    if norm = "" then (seen, st1)
    else if norm ∈ seen then (seen, st1)
    else (seenInsert norm seen,
      { st1 with outcome := some (.ok (mkQuestion qid t qData) norm) })

/-- The forced-variant finalisation (lines 105-123): append the suffix to
the last representative text and insert without checking; when the base
is not a string, `base + suffix` raises (line 115) and the exception
escapes `_create_one`.  Also reports whether the inserted normalized text
was already present. -/
def taskForced (t : GenTask) (qid hex : String) (seen : List String)
    (st : TaskState) : List String × TaskState × Bool :=
  let base := pyOr st.lastRep (.str (t.qtype ++ " question about " ++ pyStr t.name))
  match base with
  | .str b =>
    let tagged := b ++ suffixOf hex
    let content : PyVal := .dict [("prompt", .str tagged), ("type", .str t.qtype)]
    let norm := normalizeText (.str tagged)
    (seenInsert norm seen,
     { st with outcome := some (.ok (mkQuestion qid t content) norm) },
     decide (norm ∈ seen))
  | _ => (seen, { st with outcome := some .raised }, false)

/-- Schedule task `i` for one step. -/
def genStep (specs : List GenTask) (gOracle : ℕ → ℕ → Option PyVal)
    (hexOracle idOracle : ℕ → String) (σ : GenState) (i : ℕ) : GenState :=
  match specs.get? i, σ.states.get? i with
  | some t, some st =>
    match st.outcome with
    | some _ => σ
    | Option.none =>
      if st.attempts < 5 then
        let r := taskIter t (idOracle i) (gOracle i st.attempts) σ.seen st
        { σ with seen := r.1, states := σ.states.set i r.2 }
      else
        let r := taskForced t (idOracle i) (hexOracle i) σ.seen st
        { seen := r.1, states := σ.states.set i r.2.1,
          forcedCollision := σ.forcedCollision || r.2.2 }
  | _, _ => σ

/-- Initial run state. -/
def genInit (specs : List GenTask) : GenState :=
  ⟨[], specs.map (fun _ => initTaskState), false⟩

/-- Run a schedule (interleaving) of task steps. -/
def genRun (specs : List GenTask) (gOracle : ℕ → ℕ → Option PyVal)
    (hexOracle idOracle : ℕ → String) (sched : List ℕ) : GenState :=
  sched.foldl (genStep specs gOracle hexOracle idOracle) (genInit specs)

/-- The questions collected by `as_completed` (lines 127-139): one per
task that finished without raising; a raised task is skipped. -/
def genResults (σ : GenState) : List PyVal :=
  σ.states.filterMap (fun st =>
    match st.outcome with
    | some (.ok q _) => some q
    | _ => Option.none)

/-- Ghost: the recorded normalized texts of the returned questions. -/
def genNorms (σ : GenState) : List String :=
  σ.states.filterMap (fun st =>
    match st.outcome with
    | some (.ok _ n) => some n
    | _ => Option.none)

/-- Every task has completed (the caller waits for all futures). -/
def allDone (σ : GenState) : Bool :=
  σ.states.all (fun st => st.outcome.isSome)

/-- No task escaped with an exception (no skipped question). -/
def noneRaised (σ : GenState) : Bool :=
  σ.states.all (fun st =>
    match st.outcome with
    | some .raised => false
    | _ => true)

/-- The normalized representative text derived from a returned question's
`type` and `content` fields, per the dedup-invariant wording. -/
def questionNorm (q : PyVal) : Option String :=
  match pyGetE q "type", pyGetE q "content" with
  | .ok (.str ty), .ok content =>
    match buildRepE ty content with
    | .ok rep => some (normalizeText rep)
    | .error _ => Option.none
  | _, _ => Option.none

/-! ## `routes/test.py submit_section` scoring loop (lines 926-1138)

`question_meta` (built from the DB before the loop) is taken as an input
association list from question-id strings to stored content values.  One
call to `evaluate_answer` is modelled as a per-response oracle outcome:
`.error ()` when the call raised, `.ok v` with the returned value
otherwise.  The whole per-response computation runs in `Except Unit`;
an error corresponds to an exception that would escape the loop. -/

/-- `dict.get(k)` on a known association list (never raises). -/
def dictGet (l : List (String × PyVal)) (k : String) : PyVal :=
  (assocGet l k).getD .none

/-- Lines 931-934: fall back to alternative field names when
`candidate_answer` is missing or falsy. -/
def resolveAnswer (r : PyVal) : Except Unit PyVal := do
  let a ← pyGetE r "candidate_answer"
  if pyTruthy a then pure a
  else do
    let a1 ← pyGetE r "answer"
    let a2 ← pyGetE r "response"
    let a3 ← pyGetE r "candidate_response"
    let a4 ← pyGetE r "transcript"
    pure (pyOr (pyOr (pyOr a1 a2) a3) a4)

/-- Lines 950-966: extract `(transcript, duration)` from the candidate
answer — a structured dict, a JSON-encoded string, or plain text. -/
def extractTranscriptDuration (answer : PyVal) : PyVal × PyVal :=
  match answer with
  | .dict l =>
    (pyOr (pyOr (dictGet l "transcript") (dictGet l "text")) (.str ""),
     pyOr (dictGet l "duration_seconds") (dictGet l "duration"))
  | .str s =>
    match jsonLoads s with
    | some (.dict l) =>
      (pyOr (pyOr (dictGet l "transcript") (dictGet l "text")) (.str ""),
       pyOr (dictGet l "duration_seconds") (dictGet l "duration"))
    | _ => (.str (pyStr (pyOr answer (.str ""))), .none)
  | _ => (.str (pyStr (pyOr answer (.str ""))), .none)

/-- Lines 968-969: `_clean(s) = (s or "").lower()`; raises on truthy
non-strings. -/
def pyCleanE (v : PyVal) : Except Unit String :=
  match pyOr v (.str "") with
  | .str s => .ok (pyLower s)
  | _ => .error ()

/-- Line 991: comma-separated keyword fallback. -/
def commaKeywords (s : String) : PyVal :=
  .list ((((s.splitOn ",").map pyStrip).filter (fun k => ¬ k.isEmpty)).map PyVal.str)

/-- The `expected_keywords == ["N/A"]` test of line 996. -/
def kwsIsNAList (kws : PyVal) : Bool :=
  match kws with
  | .list [x] => pyEqStr x "N/A"
  | _ => false

/-- Lines 993-1004: pull keywords/suggested time from the stored question
metadata when missing or placeholder; the surrounding `try`/`except pass`
keeps the current values on any exception (an exception can only come
from `meta.get` on non-dict metadata, before either value is updated). -/
def metaFallback (questionMeta : List (String × PyVal)) (qid correct kws st : PyVal) :
    PyVal × PyVal :=
  let meta := pyOr (dictGet questionMeta (pyStr qid)) (.dict [])
  let isNAStr := match correct with
    | .str s => decide (pyUpper (pyStrip s) = "N/A")
    | _ => false
  let cond := (!pyTruthy kws) || kwsIsNAList kws || isNAStr
  let comp : Except Unit (PyVal × PyVal) := do
    let kws2 ←
      if cond then do
        let m1 ← pyGetE meta "expected_keywords"
        let m2 ← pyGetE meta "keywords"
        let metaKws := pyOr (pyOr m1 m2) (.list [])
        pure (if pyTruthy metaKws then metaKws else kws)
      else pure kws
    let st2 ←
      if ¬ pyTruthy st then do
        let s1 ← pyGetE meta "suggested_time_seconds"
        let s2 ← pyGetE meta "suggested_time"
        let s3 ← pyGetE meta "suggested_time_seconds"
        pure (pyOr (pyOr s1 s2) s3)
      else pure st
    pure (kws2, st2)
  match comp with
  | .ok p => p
  | .error _ => (kws, st)

/-- Lines 973-1004: resolve `(expected_keywords, suggested_time)` from
the response's `correct_answer` (dict, JSON string, comma list) with the
metadata fallback applied only in the non-dict branch. -/
def resolveKeywords (questionMeta : List (String × PyVal)) (qid correct : PyVal) :
    PyVal × PyVal :=
  match correct with
  | .dict l =>
    (pyOr (pyOr (dictGet l "expected_keywords") (dictGet l "keywords")) (.list []),
     pyOr (dictGet l "suggested_time_seconds") (dictGet l "suggested_time"))
  | _ =>
    let base : PyVal × PyVal :=
      match correct with
      | .str s =>
        match jsonLoads s with
        | some (.dict l) =>
          (pyOr (pyOr (dictGet l "expected_keywords") (dictGet l "keywords")) (.list []),
           pyOr (dictGet l "suggested_time_seconds") (dictGet l "suggested_time"))
        | some (.list l) => (.list l, .none)
        | some _ => (.list [], .none)
        | Option.none => (commaKeywords s, .none)
      | _ => (.list [], .none)
    metaFallback questionMeta qid correct base.1 base.2

/-- Lines 1009-1014: count the expected keywords found as substrings of
the cleaned transcript; empty (falsy) keywords are skipped, truthy
non-string keywords raise. -/
def countMatchesE : List PyVal → String → Except Unit ℕ
  | [], _ => .ok 0
  | kw :: t, tc => do
    let kwClean ← pyCleanE kw
    let rest ← countMatchesE t tc
    if kwClean.isEmpty then .ok rest
    else .ok ((if strContains tc kwClean then 1 else 0) + rest)

/-- Line 1020: resolve the suggested time (the already-resolved value, or
`correct["suggested_time_seconds"]` when `correct` is a dict). -/
def stResolve (suggested correct : PyVal) : PyVal :=
  match suggested with
  | .none =>
    match correct with
    | .dict l => dictGet l "suggested_time_seconds"
    | _ => .none
  | s => s

/-- Lines 1022-1033: the video time score — `None` unless both values are
present and convert to floats; 1.0 inside the `[0.5x, 1.5x]` window, else
a proportional penalty (a zero suggestion raises `ZeroDivisionError`,
caught to `None`). -/
def timeScoreOf (duration st : PyVal) : Option ℚ :=
  match duration, st with
  | .none, _ => Option.none
  | _, .none => Option.none
  | d, s =>
    match pyFloatE d, pyFloatE s with
    | .ok dur, .ok stf =>
      if (1/2 : ℚ) * stf ≤ dur ∧ dur ≤ (3/2 : ℚ) * stf then some 1
      else if stf = 0 then Option.none
      else some (max 0 (1 - |dur - stf| / stf))
    | _, _ => Option.none

/-- Lines 1035-1043: combine keyword and time scores. -/
def combinedOf (qtype : PyVal) (kscore : ℚ) (ts : Option ℚ) : ℚ :=
  if pyEqStr qtype "audio" then kscore
  else
    match ts with
    | Option.none => (4/5 : ℚ) * kscore
    | some t => (4/5 : ℚ) * kscore + (1/5 : ℚ) * t

/-- Line 1048: keywords not found in the transcript (original spelling);
`k.lower()` raises on any non-string keyword. -/
def missingListE : List PyVal → String → Except Unit (List String)
  | [], _ => .ok []
  | kw :: t, tc => do
    let rest ← missingListE t tc
    match kw with
    | .str s => if strContains tc (pyLower s) then .ok rest else .ok (s :: rest)
    | _ => .error ()

/-- The fixed fallback evaluation of line 1057. -/
def avFailDict : PyVal :=
  .dict [("score", .num 0), ("feedback", .str "Audio/video evaluation failed"),
    ("is_correct", .bool false)]

/-- The fixed fallback evaluation of line 945. -/
def evalFailDict : PyVal :=
  .dict [("score", .num 0), ("feedback", .str "Evaluation failed"),
    ("is_correct", .bool false)]

/-- The `"Not evaluated"` result of line 1060. -/
def notEvaluatedDict : PyVal :=
  .dict [("score", .none), ("feedback", .str "Not evaluated"),
    ("is_correct", .bool false)]

/-- Lines 1006-1016: the keyword-presence score —
`total = max(1, len(expected_keywords))`, count the matches over the
iterated keywords, divide.  Returns `(matches, total, keyword_score)`. -/
def keywordScoreE (kws : PyVal) (tc : String) : Except Unit (ℕ × ℕ × ℚ) := do
  let len ← pyLenE kws
  let total := max 1 len
  let items ← pyIterE kws
  let nMatches ← countMatchesE items tc
  pure (nMatches, total, if 0 < total then (nMatches : ℚ) / (total : ℚ) else 0)

/-- Lines 949-1055: the heuristic audio/video evaluation body (inside the
`try`); any error is an exception reaching the `except` of line 1056. -/
def evalAudioVideoE (questionMeta : List (String × PyVal))
    (qid qtype correct answer : PyVal) : Except Unit PyVal := do
  let td := extractTranscriptDuration answer
  let transcriptClean ← pyCleanE td.1
  let ks := resolveKeywords questionMeta qid correct
  let kws := ks.1
  let kstats ← keywordScoreE kws transcriptClean
  let nMatches := kstats.1
  let total := kstats.2.1
  let kscore : ℚ := kstats.2.2
  let st2 := stResolve ks.2 correct
  let ts := timeScoreOf td.2 st2
  let combined := combinedOf qtype kscore ts
  let score := round3 combined
  let isCorrect := decide ((3/5 : ℚ) ≤ combined)
  let items ← pyIterE kws
  let missing ← missingListE items transcriptClean
  let feedback :=
    if nMatches = total then "All expected keywords present"
    else "Found " ++ toString nMatches ++ "/" ++ toString total ++
      " keywords. Missing: " ++ String.intercalate ", " missing
  pure (.dict [("score", .num score), ("feedback", .str feedback),
    ("is_correct", .bool isCorrect)])

/-- Lines 947-1057: heuristic evaluation with the catch-all fallback. -/
def evalAudioVideo (questionMeta : List (String × PyVal))
    (qid qtype correct answer : PyVal) : PyVal :=
  match evalAudioVideoE questionMeta qid qtype correct answer with
  | .ok v => v
  | .error _ => avFailDict

/-- Lines 1062-1069: the `positive_marking` scale from the stored
question metadata (`None` on absence or any conversion error). -/
def posMarkOf (questionMeta : List (String × PyVal)) (qid : PyVal) : Option ℚ :=
  let comp : Except Unit (Option ℚ) := do
    let meta := pyOr (dictGet questionMeta (pyStr qid)) (.dict [])
    let pm ← pyGetE meta "positive_marking"
    match pm with
    | .none => pure Option.none
    | v => do
      let f ← pyFloatE v
      pure (some f)
  match comp with
  | .ok r => r
  | .error _ => Option.none

/-- Lines 1071-1104: read the raw score (line 1071 is outside any inner
`try`, so it propagates) and convert it to the configured scale; the
surrounding `try`/`except pass` keeps the evaluation unchanged on any
internal error.  The two identical branches of the unscaled case (lines
1093-1102) are modelled once. -/
def applyMarking (qtype : PyVal) (posMark : Option ℚ) (evaluation : PyVal) :
    Except Unit PyVal := do
  let rawScore ← pyGetE evaluation "score"
  let comp : Except Unit PyVal :=
    match posMark, rawScore with
    | some _, .none => pure evaluation
    | some pm, raw =>
      if pyEqStr qtype "mcq" then do
        let isCorr ← pyGetE evaluation "is_correct"
        pySetE evaluation "score" (.num (if pyTruthy isCorr then pm else 0))
      else if pyEqStr qtype "coding" then do
        let rawF ← pyFloatE raw
        pySetE evaluation "score" (.num (round3 (rawF / 10 * pm)))
      else do
        let rawF ← pyFloatE raw
        pySetE evaluation "score" (.num (round3 (rawF * pm)))
    | Option.none, .none => pure evaluation
    | Option.none, raw =>
      let upd : Except Unit PyVal := do
        let rawF ← pyFloatE raw
        pySetE evaluation "score" (.num (round3 rawF))
      pure (match upd with | .ok e => e | .error _ => evaluation)
  pure (match comp with | .ok e => e | .error _ => evaluation)

/-- Lines 1116-1126: the question text included in the result entry. -/
def questionTextVal (questionMeta : List (String × PyVal)) (qid qtext : PyVal) : PyVal :=
  let qMeta : PyVal :=
    if questionMeta.isEmpty then .dict []
    else (assocGet questionMeta (pyStr qid)).getD .none
  if pyTruthy qtext then qtext
  else
    let comp : Except Unit PyVal := do
      let a ← pyGetE qMeta "question"
      if pyTruthy a then pure a
      else do
        let b ← pyGetE qMeta "prompt_text"
        if pyTruthy b then pure b
        else pyGetE qMeta "q_text"
    match comp with
    | .ok v => v
    | .error _ => qtext

/-- Lines 926-1138: score one submitted response and build its result
entry.  `evalOut` is the outcome of the (single) `evaluate_answer` call
this response would make. -/
def scoreOne (evalOut : Except Unit PyVal) (questionMeta : List (String × PyVal))
    (sectionName : PyVal) (r : PyVal) : Except Unit PyVal := do
  let qid ← pyGetE r "question_id"
  let qtype ← pyGetE r "question_type"
  let qtext ← pyGetE r "question_text"
  let correct ← pyGetE r "correct_answer"
  let answer ← resolveAnswer r
  let evaluation :=
    if pyEqStr qtype "mcq" ∨ pyEqStr qtype "coding" then
      match evalOut with
      | .ok v => v
      | .error _ => evalFailDict
    else if pyEqStr qtype "audio" ∨ pyEqStr qtype "video" then
      evalAudioVideo questionMeta qid qtype correct answer
    else notEvaluatedDict
  let posMark := posMarkOf questionMeta qid
  let evaluation2 ← applyMarking qtype posMark evaluation
  let score ← pyGetE evaluation2 "score"
  let isCorrect ← pyGetE evaluation2 "is_correct"
  let feedback ← pyGetE evaluation2 "feedback"
  let qtv := questionTextVal questionMeta qid qtext
  pure (.dict [("question_id", qid), ("question", qtv),
    ("candidate_answer", answer), ("correct_answer", correct),
    ("section_name", sectionName), ("score", score),
    ("is_correct", isCorrect), ("feedback", feedback),
    ("positive_marking", match posMark with | some q => .num q | Option.none => .none)])

/-- The `for r in responses` loop from position `i` on: responses are
scored sequentially in source order, response `i` consuming oracle
outcome `i`; an uncaught exception aborts the remaining iterations. -/
def scoreAll (oracle : ℕ → Except Unit PyVal) (questionMeta : List (String × PyVal))
    (sectionName : PyVal) : ℕ → List PyVal → Except Unit (List PyVal)
  | _, [] => .ok []
  | i, r :: rest => do
    let e ← scoreOne (oracle i) questionMeta sectionName r
    let out ← scoreAll oracle questionMeta sectionName (i + 1) rest
    .ok (e :: out)

/-- The whole scoring loop (lines 926-1138). -/
def submitScore (oracle : ℕ → Except Unit PyVal) (questionMeta : List (String × PyVal))
    (sectionName : PyVal) (responses : List PyVal) : Except Unit (List PyVal) :=
  scoreAll oracle questionMeta sectionName 0 responses

/-! ## `llm_client.generate_question` output normalization (lines 119-158)

Only the normalization of the parsed JSON into the returned dict is
modelled (the HTTP call is the excluded remote boundary); it witnesses
that the generation oracle values used below are reachable outputs. -/

/-- Lines 119-158: shape the parsed JSON object by question type. -/
def llmNormalizeOutput (qtype : String) (parsed : PyVal) : Except Unit PyVal :=
  if qtype = "mcq" then do
    let q1 ← pyGetE parsed "prompt"
    let q2 ← pyGetE parsed "question"
    let q3 ← pyGetE parsed "prompt_text"
    let opts ← pyGetDE parsed "options" (.list [])
    let a1 ← pyGetE parsed "answer"
    let a2 ← pyGetE parsed "correct_answer"
    pure (.dict [("question", pyOr (pyOr q1 q2) q3), ("options", opts),
      ("correct_answer", pyOr a1 a2)])
  else if qtype = "coding" then do
    let q1 ← pyGetE parsed "prompt"
    let q2 ← pyGetE parsed "question"
    let i1 ← pyGetE parsed "input_spec"
    let o1 ← pyGetE parsed "output_spec"
    let ex ← pyGetDE parsed "examples" (.list [])
    pure (.dict [("question", pyOr q1 q2), ("input_spec", i1),
      ("output_spec", o1), ("examples", ex)])
  else if qtype = "audio" then do
    let q1 ← pyGetE parsed "prompt_text"
    let q2 ← pyGetE parsed "prompt"
    let kw ← pyGetDE parsed "expected_keywords" (.list [])
    let ru ← pyGetE parsed "rubric"
    pure (.dict [("prompt_text", pyOr q1 q2), ("expected_keywords", kw), ("rubric", ru)])
  else if qtype = "video" then do
    let q1 ← pyGetE parsed "prompt_text"
    let q2 ← pyGetE parsed "prompt"
    let ru ← pyGetE parsed "rubric"
    let ts ← pyGetDE parsed "suggested_time_seconds" (.num 60)
    pure (.dict [("prompt_text", pyOr q1 q2), ("rubric", ru),
      ("suggested_time_seconds", ts)])
  else pure parsed

/-! ## Concrete run scenarios used by the counterexamples -/

/-- One skill requesting one mcq question. -/
def c1Payload : PyVal :=
  .dict [("skills", .list [.dict [("name", .str "s"),
    ("counts", .dict [("mcq", .num 1)])]])]

/-- A `generate_question` outcome whose `options` list holds a number
(reachable: the remote JSON `{"prompt": "q", "options": [1], "answer":
"A"}` normalizes to it), making `" ".join(...)` raise `TypeError`. -/
def c1Oracle : ℕ → ℕ → Option PyVal := fun _ _ =>
  some (.dict [("question", .str "q"), ("options", .list [.num 1]),
    ("correct_answer", .str "A")])

/-- The task list of `c1Payload`. -/
def c1Specs : List GenTask :=
  match buildTasks c1Payload with
  | .ok specs => specs
  | .error _ => []

/-- The complete run of the single task. -/
def c1Run : GenState := genRun c1Specs c1Oracle (fun _ => "aaaaaa") (fun _ => "id") [0]

/-- One skill requesting three audio questions. -/
def c2Payload : PyVal :=
  .dict [("skills", .list [.dict [("name", .str "s"),
    ("counts", .dict [("audio", .num 3)])]])]

/-- Task 0 produces `"x (variant abc123)"`; tasks 1 and 2 produce `"x"`. -/
def c2Oracle : ℕ → ℕ → Option PyVal := fun i _ =>
  if i = 0 then some (.dict [("prompt_text", .str "x (variant abc123)")])
  else some (.dict [("prompt_text", .str "x")])

/-- The task list of `c2Payload`. -/
def c2Specs : List GenTask :=
  match buildTasks c2Payload with
  | .ok specs => specs
  | .error _ => []

/-- Tasks 0 and 1 accept; task 2 collides five times on `"x"` and is
forced with the uuid hex `"abc123"`, whose tagged text collides with
task 0's accepted question. -/
def c2Run : GenState :=
  genRun c2Specs c2Oracle (fun _ => "abc123") (fun i => toString i)
    [0, 1, 2, 2, 2, 2, 2, 2]

/-- Dedup run invariant: distinct finished tasks carry distinct recorded
normalized texts, every recorded text is in the shared set, and each
recorded text is the normalized representative derived from the returned
question itself. -/
def GenInv (σ : GenState) : Prop :=
  (∀ i j si sj, i ≠ j → σ.states.get? i = some si → σ.states.get? j = some sj →
    ∀ qi ni qj nj, si.outcome = some (.ok qi ni) → sj.outcome = some (.ok qj nj) →
      ni ≠ nj) ∧
  (∀ st ∈ σ.states, ∀ q n, st.outcome = some (.ok q n) →
    n ∈ σ.seen ∧ questionNorm q = some n)

/-! ## Supporting lemmas -/

theorem assocGet_assocSet_self (l : List (String × PyVal)) (k : String) (v : PyVal) :
    assocGet (assocSet l k v) k = some v := by
  induction l with
  | nil => simp [assocSet, assocGet]
  | cons h t ih =>
    obtain ⟨k0, v0⟩ := h
    by_cases hk : k0 = k
    · simp [assocSet, hk, assocGet]
    · simpa [assocSet, hk, assocGet] using ih

theorem assocGet_assocSet_ne (l : List (String × PyVal)) (k k' : String) (v : PyVal)
    (hk : k ≠ k') : assocGet (assocSet l k v) k' = assocGet l k' := by
  induction l with
  | nil => simp [assocSet, assocGet, List.find?, hk]
  | cons h t ih =>
    obtain ⟨k0, v0⟩ := h
    by_cases h0 : k0 = k
    · subst h0
      simp [assocSet, assocGet, List.find?, hk]
    · by_cases h1 : k0 = k'
      · subst h1
        simp [assocSet, Ne.symm hk, assocGet, List.find?]
      · simpa [assocSet, h0, assocGet, List.find?, h1] using ih

theorem except_bind_ok {α β : Type} (x : Except Unit α) (f : α → Except Unit β) (b : β) :
    (x >>= f) = .ok b ↔ ∃ a, x = .ok a ∧ f a = .ok b := by
  cases x with
  | error e => simp [Bind.bind, Except.bind]
  | ok a => simp [Bind.bind, Except.bind]

theorem ratFloor_eq_intFloor (q : ℚ) : Rat.floor q = ⌊q⌋ := by
  rw [Rat.floor_def', Rat.floor_def]

theorem round3_zero : round3 0 = 0 := by
  simp [round3, ratFloor_eq_intFloor]
  norm_num

theorem round3_mono {a b : ℚ} (h : a ≤ b) : round3 a ≤ round3 b := by
  unfold round3
  rw [ratFloor_eq_intFloor, ratFloor_eq_intFloor]
  have h1 : a * 1000 + 1 / 2 ≤ b * 1000 + 1 / 2 := by nlinarith
  have h2 := Int.floor_le_floor h1
  have h3 : ((⌊a * 1000 + 1 / 2⌋ : ℤ) : ℚ) ≤ ((⌊b * 1000 + 1 / 2⌋ : ℤ) : ℚ) := by
    exact_mod_cast h2
  linarith

theorem pyLower_isEmpty (s : String) : (pyLower s).isEmpty = s.isEmpty := by
  by_cases h : s = ""
  · subst h; rfl
  · have h1 : ¬ (pyLower s).isEmpty := by
      intro hc
      have := (String.isEmpty_iff _).1 hc
      have hd : (s.data.map Char.toLower) = [] := congrArg String.data this
      have : s.data = [] := by simpa using hd
      exact h (String.ext this)
    have h2 : ¬ s.isEmpty := by
      intro hc
      exact h ((String.isEmpty_iff _).1 hc)
    simp [h1, h2]

/-- The derived-answer expression used by `resolveAnswer` on a dict. -/
def answerOf (l : List (String × PyVal)) : PyVal :=
  if pyTruthy (dictGet l "candidate_answer") then dictGet l "candidate_answer"
  else pyOr (pyOr (pyOr (dictGet l "answer") (dictGet l "response"))
    (dictGet l "candidate_response")) (dictGet l "transcript")

theorem pyGetE_dict (l : List (String × PyVal)) (k : String) :
    pyGetE (.dict l) k = .ok (dictGet l k) := rfl

theorem ok_bind {α β : Type} (a : α) (f : α → Except Unit β) :
    (Except.ok a >>= f) = f a := rfl

theorem resolveAnswer_dict (l : List (String × PyVal)) :
    resolveAnswer (.dict l) = .ok (answerOf l) := by
  simp only [resolveAnswer, pyGetE_dict, ok_bind, answerOf]
  by_cases h : pyTruthy (dictGet l "candidate_answer") <;>
    simp [h, Pure.pure, Except.pure]

/-- C6. The spec (and the function's own docstring) promise recovery of
the first well-formed JSON object with prose tolerated on both sides, and
failure exactly when no object is recoverable.  The greedy `(\{.*\})`
span runs from the first `{` to the last `}`, so text containing a
recoverable first object followed by a second object (or any later `}`)
parses as nothing, while the single-object case does tolerate prose. -/
theorem extract_json_first_object :
    extractJsonFromText "x \x7b\"a\": 1\x7d y \x7b\"b\": 2\x7d" = Option.none ∧
    jsonLoads "\x7b\"a\": 1\x7d" = some (.dict [("a", .num 1)]) ∧
    extractJsonFromText "prose \x7b\"a\": 1\x7d more prose" = some (.dict [("a", .num 1)]) := by
  refine ⟨rfl, rfl, rfl⟩

theorem pyFloatE_num (q : ℚ) : pyFloatE (.num q) = .ok q := rfl

theorem pyCleanE_str (k : String) : pyCleanE (.str k) = .ok (pyLower k) := by
  by_cases h : k = ""
  · subst h; rfl
  · have hie : k.isEmpty = false := by
      rw [Bool.eq_false_iff]
      intro hc
      exact h ((String.isEmpty_iff k).1 hc)
    have ht : pyTruthy (.str k) = true := by simp [pyTruthy, hie]
    simp [pyCleanE, pyOr, ht]

theorem countMatchesE_strs (kws : List String) (tc : String) :
    countMatchesE (kws.map PyVal.str) tc =
      .ok ((kws.filter (fun k => !k.isEmpty && strContains tc (pyLower k))).length) := by
  induction kws with
  | nil => rfl
  | cons k t ih =>
    simp only [List.map_cons, countMatchesE, pyCleanE_str, ok_bind, ih]
    by_cases hk : k.isEmpty
    · simp [pyLower_isEmpty, hk, List.filter_cons]
    · by_cases hc : strContains tc (pyLower k)
      · simp [pyLower_isEmpty, hk, hc, List.filter_cons, Nat.add_comm]
      · simp [pyLower_isEmpty, hk, hc, List.filter_cons]

/-- C3 counterexample: for a coding answer with raw score 7 and
`positive_marking = 1/500 = 0.002`, the code stores
`round((7/10)*0.002, 3) = 0.001`, not the exact product `0.0014` the
claim describes. -/
theorem marking_coding_round_counterexample :
    applyMarking (.str "coding") (some (1/500)) (.dict [("score", .num 7)]) =
      .ok (.dict [("score", .num (1/1000))]) ∧
    ((1/1000 : ℚ) ≠ 7 / 10 * (1/500)) := by
  refine ⟨by with_unfolding_all rfl, by norm_num⟩

/-- C3 (amended): the mark-normalization rule table of lines 1077-1104 —
mcq is all-or-nothing at exactly `positive_marking`; coding and
audio/video scale the raw score and round the product to 3 decimals;
without a configured scale the raw score is reported rounded to
3 decimals. -/
theorem marking_policy (l : List (String × PyVal)) (pm r : ℚ) (b : Bool)
    (hs : dictGet l "score" = .num r) (hc : dictGet l "is_correct" = .bool b) :
    applyMarking (.str "mcq") (some pm) (.dict l) =
      .ok (.dict (assocSet l "score" (.num (if b then pm else 0)))) ∧
    applyMarking (.str "coding") (some pm) (.dict l) =
      .ok (.dict (assocSet l "score" (.num (round3 (r / 10 * pm))))) ∧
    (∀ qt : String, qt = "audio" ∨ qt = "video" →
      applyMarking (.str qt) (some pm) (.dict l) =
        .ok (.dict (assocSet l "score" (.num (round3 (r * pm)))))) ∧
    (∀ qt : PyVal, applyMarking qt Option.none (.dict l) =
      .ok (.dict (assocSet l "score" (.num (round3 r))))) ∧
    assocGet (assocSet l "score" (.num (if b then pm else 0))) "score" =
      some (.num (if b then pm else 0)) := by
  refine ⟨?_, ?_, ?_, ?_, assocGet_assocSet_self l "score" _⟩
  · simp only [applyMarking, pyGetE_dict, ok_bind, hs, hc]
    simp [pyEqStr, pyTruthy, pySetE, Pure.pure, Except.pure]
  · simp only [applyMarking, pyGetE_dict, ok_bind, hs]
    simp [pyEqStr, pyFloatE_num, pySetE, Pure.pure, Except.pure, ok_bind]
  · rintro qt (h | h) <;> subst h <;>
    · simp only [applyMarking, pyGetE_dict, ok_bind, hs]
      simp [pyEqStr, pyFloatE_num, pySetE, Pure.pure, Except.pure, ok_bind]
  · intro qt
    simp only [applyMarking, pyGetE_dict, ok_bind, hs]
    simp [pyFloatE_num, pySetE, Pure.pure, Except.pure, ok_bind]

/-- C3 witness. -/
theorem marking_policy_witness :
    applyMarking (.str "mcq") (some 5) (.dict [("score", .num 1), ("is_correct", .bool true)]) =
      .ok (.dict (assocSet [("score", PyVal.num 1), ("is_correct", PyVal.bool true)]
        "score" (.num (if true then (5 : ℚ) else 0)))) :=
  (marking_policy [("score", .num 1), ("is_correct", .bool true)] 5 1 true rfl rfl).1

/-- C4 counterexample: with expected keywords `["a", ""]` and transcript
`"a"` the code scores `1/2` — the empty keyword is skipped in the match
count but still counted in the denominator, so the claimed value
(empty keywords in neither numerator nor denominator: `1/1`) is wrong. -/
theorem keyword_denominator_counterexample :
    evalAudioVideoE [] (.str "q1") (.str "audio")
      (.dict [("expected_keywords", .list [.str "a", .str ""])])
      (.dict [("transcript", .str "a")]) =
      .ok (.dict [("score", .num (1/2)),
        ("feedback", .str "Found 1/2 keywords. Missing: "),
        ("is_correct", .bool false)]) ∧
    ((1/2 : ℚ) ≠ 1 / 1) := by
  refine ⟨by with_unfolding_all rfl, by norm_num⟩

/-- C4 (amended): `keyword_score = matches / max(1, total)` where
`matches` counts the non-empty expected keywords whose lower-cased text
is a substring of the transcript, and `total` is the number of ALL
expected keywords (empty strings are skipped only in the numerator; the
denominator counts them). -/
theorem keyword_score_formula (kws : List String) (tc : String) :
    keywordScoreE (.list (kws.map PyVal.str)) tc =
      .ok ((kws.filter (fun k => !k.isEmpty && strContains tc (pyLower k))).length,
        max 1 kws.length,
        (((kws.filter (fun k => !k.isEmpty && strContains tc (pyLower k))).length : ℕ) : ℚ) /
          ((max 1 kws.length : ℕ) : ℚ)) := by
  have hpos : 0 < max 1 kws.length := Nat.lt_of_lt_of_le Nat.zero_lt_one (Nat.le_max_left 1 _)
  simp only [keywordScoreE, pyLenE, pyIterE, ok_bind, List.length_map, countMatchesE_strs]
  simp [hpos, Pure.pure, Except.pure]

/-- C5: the combined-score rule of lines 1035-1046 — audio uses the
keyword score alone; video weights keywords at 0.8 and the time score at
0.2 when one exists, otherwise only `0.8 * keyword_score`; in particular
a perfect keyword score with no duration data yields 0.8, not 1.0. -/
theorem combined_score_policy :
    (∀ (k : ℚ) (ts : Option ℚ), combinedOf (.str "audio") k ts = k) ∧
    (∀ (k t : ℚ), combinedOf (.str "video") k (some t) = 4/5 * k + 1/5 * t) ∧
    (∀ (k : ℚ), combinedOf (.str "video") k Option.none = 4/5 * k) ∧
    evalAudioVideoE [] (.str "q") (.str "video")
      (.dict [("expected_keywords", .list [.str "a"])])
      (.dict [("transcript", .str "a")]) =
      .ok (.dict [("score", .num (4/5)),
        ("feedback", .str "All expected keywords present"),
        ("is_correct", .bool true)]) ∧
    ((4/5 : ℚ) ≠ 1) := by
  refine ⟨fun k ts => rfl, fun k t => rfl, fun k => rfl, by with_unfolding_all rfl, by norm_num⟩

/-- C10: when `candidate_answer` is missing or falsy, the answer is taken
from the first truthy of `answer`, `response`, `candidate_response`,
`transcript` (lines 931-934), and scoring the response is identical to
scoring it with that value stored in `candidate_answer`. -/
theorem answer_fallback (l : List (String × PyVal)) (ev : Except Unit PyVal)
    (qm : List (String × PyVal)) (sec : PyVal)
    (h : pyTruthy (dictGet l "candidate_answer") = false) :
    resolveAnswer (.dict l) =
      .ok (pyOr (pyOr (pyOr (dictGet l "answer") (dictGet l "response"))
        (dictGet l "candidate_response")) (dictGet l "transcript")) ∧
    scoreOne ev qm sec (.dict (assocSet l "candidate_answer"
        (pyOr (pyOr (pyOr (dictGet l "answer") (dictGet l "response"))
          (dictGet l "candidate_response")) (dictGet l "transcript")))) =
      scoreOne ev qm sec (.dict l) := by
  set V := pyOr (pyOr (pyOr (dictGet l "answer") (dictGet l "response"))
    (dictGet l "candidate_response")) (dictGet l "transcript") with hV
  have h1 : resolveAnswer (.dict l) = .ok V := by
    rw [resolveAnswer_dict]
    simp [answerOf, h]
  refine ⟨h1, ?_⟩
  set l' := assocSet l "candidate_answer" V with hl'
  have hd : ∀ k, k ≠ "candidate_answer" → dictGet l' k = dictGet l k := by
    intro k hk
    simp [dictGet, hl', assocGet_assocSet_ne l "candidate_answer" k V (Ne.symm hk)]
  have hself : dictGet l' "candidate_answer" = V := by
    simp [dictGet, hl', assocGet_assocSet_self]
  have h2 : resolveAnswer (.dict l') = .ok V := by
    rw [resolveAnswer_dict]
    by_cases hv : pyTruthy V
    · simp [answerOf, hself, hv]
    · simp [answerOf, hself, hv, hd "answer" (by decide), hd "response" (by decide),
        hd "candidate_response" (by decide), hd "transcript" (by decide)]
  simp only [scoreOne, pyGetE_dict, h1, h2,
    hd "question_id" (by decide), hd "question_type" (by decide),
    hd "question_text" (by decide), hd "correct_answer" (by decide)]

/-- C10 witness. -/
theorem answer_fallback_witness :
    resolveAnswer (.dict [("response", .str "hello")]) = .ok (.str "hello") := by
  have h := (answer_fallback [("response", .str "hello")] (.ok (.dict [])) [] (.str "s")
    (by with_unfolding_all rfl)).1
  exact h.trans (by with_unfolding_all rfl)

/-- C9 counterexample, refuting both bounds of the original claim.
First: a video response with a negative suggested duration (-10s) and
duration 5s gets `time_score = 2.5`, a combined score of `1.3 > 1`, and
with `positive_marking = 1` a final score of `1.3 > positive_marking`.
Second: even a combined score within `[0, 1]` can be stored above
`positive_marking`, because the product is rounded half-up to 3
decimals: `positive_marking = 0.0006` with a perfect combined score 1
stores `round(0.0006, 3) = 0.001 > 0.0006`. -/
theorem combined_range_counterexample :
    (((scoreOne (.error ()) [("q1", .dict [("positive_marking", .num 1)])] (.str "sec")
        (.dict [("question_id", .str "q1"), ("question_type", .str "video"),
          ("correct_answer", .dict [("expected_keywords", .list [.str "a"]),
            ("suggested_time_seconds", .num (-10))]),
          ("candidate_answer", .dict [("transcript", .str "a"),
            ("duration", .num 5)])])) >>=
      (fun e => pyGetE e "score")) = .ok (.num (13/10)) ∧
    ¬ ((13/10 : ℚ) ≤ 1)) ∧
    (applyMarking (.str "video") (some (3/5000)) (.dict [("score", .num 1)]) =
      .ok (.dict [("score", .num (1/1000))]) ∧
    ¬ ((1/1000 : ℚ) ≤ 3/5000)) := by
  refine ⟨⟨by with_unfolding_all rfl, by norm_num⟩,
    ⟨by with_unfolding_all rfl, by norm_num⟩⟩

theorem countMatchesE_le (items : List PyVal) (tc : String) (n : ℕ)
    (h : countMatchesE items tc = .ok n) : n ≤ items.length := by
  induction items generalizing n with
  | nil =>
    simp [countMatchesE] at h
    omega
  | cons kw t ih =>
    simp only [countMatchesE] at h
    rw [except_bind_ok] at h
    obtain ⟨kc, h1, h⟩ := h
    rw [except_bind_ok] at h
    obtain ⟨rest, h2, h⟩ := h
    have hr := ih rest h2
    by_cases he : kc.isEmpty
    · rw [if_pos he] at h
      injection h with h
      subst h
      simp only [List.length_cons]
      omega
    · rw [if_neg he] at h
      injection h with h
      subst h
      simp only [List.length_cons]
      split <;> omega

theorem pyLen_iter_length (v : PyVal) (n : ℕ) (items : List PyVal)
    (hl : pyLenE v = .ok n) (hi : pyIterE v = .ok items) : items.length = n := by
  cases v with
  | str s =>
    simp only [pyLenE, Except.ok.injEq] at hl
    simp only [pyIterE, Except.ok.injEq] at hi
    rw [← hi, ← hl]
    rw [List.length_map]
    rfl
  | list l =>
    simp only [pyLenE, Except.ok.injEq] at hl
    simp only [pyIterE, Except.ok.injEq] at hi
    rw [← hi, ← hl]
  | dict l =>
    simp only [pyLenE, Except.ok.injEq] at hl
    simp only [pyIterE, Except.ok.injEq] at hi
    rw [← hi, ← hl]
    simp
  | none => simp [pyLenE] at hl
  | num q => simp [pyLenE] at hl
  | bool b => simp [pyLenE] at hl

/-- C9 (amended): the keyword score is always within `[0, 1]`; the video
time score is within `[0, 1]` whenever the suggested duration is
positive; the combined score is then within `[0, 1]`; and with a
non-negative `positive_marking` the scaled final score never exceeds
`positive_marking` rounded to 3 decimals (the rounding of line 1088 can
push the result up to half a thousandth above the exact product). -/
theorem heuristic_score_range :
    (∀ (kws : PyVal) (tc : String) (m T : ℕ) (s : ℚ),
      keywordScoreE kws tc = .ok (m, T, s) → 0 ≤ s ∧ s ≤ 1) ∧
    (∀ (d sq t : ℚ), 0 < sq → timeScoreOf (.num d) (.num sq) = some t →
      0 ≤ t ∧ t ≤ 1) ∧
    (∀ (qt : PyVal) (k : ℚ) (ts : Option ℚ), 0 ≤ k → k ≤ 1 →
      (∀ t, ts = some t → 0 ≤ t ∧ t ≤ 1) →
      0 ≤ combinedOf qt k ts ∧ combinedOf qt k ts ≤ 1) ∧
    (∀ (pm c : ℚ), 0 ≤ pm → 0 ≤ c → c ≤ 1 → round3 (c * pm) ≤ round3 pm) := by
  refine ⟨?_, ?_, ?_, ?_⟩
  · intro kws tc m T s h
    simp only [keywordScoreE] at h
    rw [except_bind_ok] at h
    obtain ⟨len, h1, h⟩ := h
    rw [except_bind_ok] at h
    obtain ⟨items, h2, h⟩ := h
    rw [except_bind_ok] at h
    obtain ⟨nM, h3, h⟩ := h
    simp only [Pure.pure, Except.pure, Except.ok.injEq, Prod.mk.injEq] at h
    obtain ⟨hm, hT, hs⟩ := h
    have hle : nM ≤ items.length := countMatchesE_le items tc nM h3
    have hlen : items.length = len := pyLen_iter_length kws len items h1 h2
    have hmT : nM ≤ max 1 len := le_trans (hlen ▸ hle) (Nat.le_max_right 1 len)
    have hpos : 0 < max 1 len := Nat.lt_of_lt_of_le Nat.zero_lt_one (Nat.le_max_left 1 _)
    rw [← hs]
    simp only [hpos, if_pos]
    constructor
    · positivity
    · rw [div_le_one (by exact_mod_cast hpos)]
      exact_mod_cast hmT
  · intro d sq t hpos h
    simp only [timeScoreOf, pyFloatE] at h
    by_cases hw : (1/2 : ℚ) * sq ≤ d ∧ d ≤ (3/2 : ℚ) * sq
    · rw [if_pos hw] at h
      injection h with h
      subst h
      norm_num
    · have hnz : ¬ sq = 0 := by positivity
      rw [if_neg hw, if_neg hnz] at h
      injection h with h
      subst h
      constructor
      · exact le_max_left 0 _
      · have habs : 0 ≤ |d - sq| / sq := by positivity
        rw [max_le_iff]
        constructor <;> linarith
  · intro qt k ts hk0 hk1 hts
    by_cases ha : pyEqStr qt "audio" = true
    · simp [combinedOf, ha]
      exact ⟨hk0, hk1⟩
    · cases ts with
      | none =>
        simp [combinedOf, ha]
        constructor <;> nlinarith
      | some t =>
        obtain ⟨ht0, ht1⟩ := hts t rfl
        simp [combinedOf, ha]
        constructor <;> nlinarith
  · intro pm c hpm hc0 hc1
    have : c * pm ≤ pm := by nlinarith
    exact round3_mono this

/-- C9 witness. -/
theorem heuristic_score_range_witness :
    (0 ≤ (1 : ℚ) ∧ (1 : ℚ) ≤ 1) ∧ round3 (1/2 * 1) ≤ round3 1 :=
  ⟨heuristic_score_range.1 (.list [.str "a"]) "a" 1 1 1 (by with_unfolding_all rfl),
   heuristic_score_range.2.2.2 1 (1/2) (by norm_num) (by norm_num) (by norm_num)⟩

theorem pyEqStr_true {v : PyVal} {s : String} (h : pyEqStr v s = true) : v = .str s := by
  cases v <;> simp [pyEqStr] at h
  subst h
  rfl

theorem evalAudioVideoE_ok_dict {qm : List (String × PyVal)} {qid qt c a v : PyVal}
    (h : evalAudioVideoE qm qid qt c a = .ok v) : ∃ l, v = .dict l := by
  simp only [evalAudioVideoE] at h
  rw [except_bind_ok] at h
  obtain ⟨tc, _, h⟩ := h
  rw [except_bind_ok] at h
  obtain ⟨ks, _, h⟩ := h
  rw [except_bind_ok] at h
  obtain ⟨items, _, h⟩ := h
  rw [except_bind_ok] at h
  obtain ⟨missing, _, h⟩ := h
  simp only [Pure.pure, Except.pure, Except.ok.injEq] at h
  exact ⟨_, h.symm⟩

theorem applyMarking_dict (qt : PyVal) (pm : Option ℚ) (l : List (String × PyVal)) :
    ∃ l2, applyMarking qt pm (.dict l) = .ok (.dict l2) := by
  simp only [applyMarking, pyGetE_dict, ok_bind]
  generalize dictGet l "score" = raw
  cases pm with
  | none =>
    cases raw with
    | none => exact ⟨l, rfl⟩
    | str s =>
      rcases hps : parsePyFloat s with _ | q <;>
        simp [pyFloatE, hps, Pure.pure, Except.pure, Bind.bind, Except.bind, pySetE]
    | num q => exact ⟨_, rfl⟩
    | bool b => exact ⟨_, rfl⟩
    | list xs => exact ⟨l, rfl⟩
    | dict d => exact ⟨l, rfl⟩
  | some pmv =>
    by_cases h1 : pyEqStr qt "mcq" = true
    · cases raw with
      | none => exact ⟨l, rfl⟩
      | str s => simp [h1, Bind.bind, Except.bind, pyGetE, pySetE, Pure.pure, Except.pure]
      | num q => simp [h1, Bind.bind, Except.bind, pyGetE, pySetE, Pure.pure, Except.pure]
      | bool b => simp [h1, Bind.bind, Except.bind, pyGetE, pySetE, Pure.pure, Except.pure]
      | list xs => simp [h1, Bind.bind, Except.bind, pyGetE, pySetE, Pure.pure, Except.pure]
      | dict d => simp [h1, Bind.bind, Except.bind, pyGetE, pySetE, Pure.pure, Except.pure]
    · by_cases h2 : pyEqStr qt "coding" = true
      · cases raw with
        | none => exact ⟨l, rfl⟩
        | str s =>
          rcases hps : parsePyFloat s with _ | q <;>
            simp [h1, h2, pyFloatE, hps, Pure.pure, Except.pure, Bind.bind, Except.bind, pySetE]
        | num q => simp [h1, h2, Bind.bind, Except.bind, pyFloatE, pySetE, Pure.pure, Except.pure]
        | bool b => simp [h1, h2, Bind.bind, Except.bind, pyFloatE, pySetE, Pure.pure, Except.pure]
        | list xs => simp [h1, h2, Bind.bind, Except.bind, pyFloatE, pySetE, Pure.pure, Except.pure]
        | dict d => simp [h1, h2, Bind.bind, Except.bind, pyFloatE, pySetE, Pure.pure, Except.pure]
      · cases raw with
        | none => exact ⟨l, rfl⟩
        | str s =>
          rcases hps : parsePyFloat s with _ | q <;>
            simp [h1, h2, pyFloatE, hps, Pure.pure, Except.pure, Bind.bind, Except.bind, pySetE]
        | num q => simp [h1, h2, Bind.bind, Except.bind, pyFloatE, pySetE, Pure.pure, Except.pure]
        | bool b => simp [h1, h2, Bind.bind, Except.bind, pyFloatE, pySetE, Pure.pure, Except.pure]
        | list xs => simp [h1, h2, Bind.bind, Except.bind, pyFloatE, pySetE, Pure.pure, Except.pure]
        | dict d => simp [h1, h2, Bind.bind, Except.bind, pyFloatE, pySetE, Pure.pure, Except.pure]

theorem scoreOne_ok (ev : Except Unit PyVal) (qm : List (String × PyVal)) (sec : PyVal)
    (l : List (String × PyVal))
    (hev : ev = .error () ∨ ∃ d, ev = .ok (.dict d)) :
    ∃ e, scoreOne ev qm sec (.dict l) = .ok e := by
  simp only [scoreOne, pyGetE_dict, ok_bind, resolveAnswer_dict]
  have heval : ∃ le,
      (if pyEqStr (dictGet l "question_type") "mcq" = true ∨
          pyEqStr (dictGet l "question_type") "coding" = true then
        match ev with
        | .ok v => v
        | .error _ => evalFailDict
      else if pyEqStr (dictGet l "question_type") "audio" = true ∨
          pyEqStr (dictGet l "question_type") "video" = true then
        evalAudioVideo qm (dictGet l "question_id") (dictGet l "question_type")
          (dictGet l "correct_answer") (answerOf l)
      else notEvaluatedDict) = .dict le := by
    by_cases hA : pyEqStr (dictGet l "question_type") "mcq" = true ∨
        pyEqStr (dictGet l "question_type") "coding" = true
    · rcases hev with he | ⟨d, he⟩ <;> subst he <;> simp [hA, evalFailDict]
    · by_cases hB : pyEqStr (dictGet l "question_type") "audio" = true ∨
          pyEqStr (dictGet l "question_type") "video" = true
      · simp only [hA, hB, if_false, if_true]
        unfold evalAudioVideo
        cases hE : evalAudioVideoE qm (dictGet l "question_id") (dictGet l "question_type")
            (dictGet l "correct_answer") (answerOf l) with
        | error e => exact ⟨_, rfl⟩
        | ok v => exact evalAudioVideoE_ok_dict hE
      · simp [hA, hB, notEvaluatedDict]
  obtain ⟨le, hle⟩ := heval
  rw [hle]
  obtain ⟨l2, h2⟩ := applyMarking_dict (dictGet l "question_type")
    (posMarkOf qm (dictGet l "question_id")) le
  rw [h2]
  simp only [pyGetE_dict, ok_bind]
  exact ⟨_, rfl⟩

theorem scoreAll_ok (oracle : ℕ → Except Unit PyVal) (qm : List (String × PyVal))
    (sec : PyVal) (responses : List PyVal) :
    ∀ start : ℕ,
    (∀ i r, responses.get? i = some r → ∃ e, scoreOne (oracle (start + i)) qm sec r = .ok e) →
    ∃ out, scoreAll oracle qm sec start responses = .ok out ∧
      out.length = responses.length ∧
      ∀ i r e, responses.get? i = some r →
        scoreOne (oracle (start + i)) qm sec r = .ok e → out.get? i = some e := by
  induction responses with
  | nil =>
    intro start _
    exact ⟨[], rfl, rfl, fun i r e hr => by simp at hr⟩
  | cons a t ih =>
    intro start h
    obtain ⟨e0, he0⟩ := h 0 a (by simp)
    obtain ⟨out, ho, hlen, hpt⟩ := ih (start + 1)
      (fun i r hr => by
        have := h (i + 1) r (by simpa using hr)
        simpa [Nat.add_assoc, Nat.add_comm 1 i] using this)
    rw [Nat.add_zero] at he0
    refine ⟨e0 :: out, ?_, by simp [hlen], ?_⟩
    · simp only [scoreAll, he0, ok_bind, ho]
    · intro i r e hr hscore
      cases i with
      | zero =>
        simp only [List.get?_cons_zero, Option.some.injEq] at hr
        subst hr
        rw [Nat.add_zero] at hscore
        rw [he0] at hscore
        injection hscore with hscore
        simp [hscore]
      | succ n =>
        simp only [List.get?_cons_succ] at hr ⊢
        refine hpt n r e hr ?_
        have : start + (n + 1) = start + 1 + n := by omega
        rw [this] at hscore
        exact hscore

theorem applyMarking_failDict (qt : PyVal) (pm : Option ℚ) :
    applyMarking qt pm evalFailDict = .ok evalFailDict := by
  cases pm with
  | none =>
    simp [applyMarking, evalFailDict, pyGetE_dict, ok_bind, dictGet, assocGet,
      List.find?, pyFloatE, round3_zero, pySetE, assocSet,
      Bind.bind, Except.bind, Pure.pure, Except.pure]
  | some pmv =>
    have hz10 : (0:ℚ) / 10 * pmv = 0 := by ring
    have hz : (0:ℚ) * pmv = 0 := by ring
    by_cases h1 : pyEqStr qt "mcq" = true
    · simp [applyMarking, evalFailDict, pyGetE_dict, ok_bind, h1, dictGet, assocGet,
        List.find?, pyTruthy, pySetE, assocSet, Bind.bind, Except.bind, Pure.pure, Except.pure]
    · by_cases h2 : pyEqStr qt "coding" = true
      · simp [applyMarking, evalFailDict, pyGetE_dict, ok_bind, h1, h2, pyFloatE,
          hz10, round3_zero, pySetE, assocSet, dictGet, assocGet, List.find?,
          Bind.bind, Except.bind, Pure.pure, Except.pure]
      · simp [applyMarking, evalFailDict, pyGetE_dict, ok_bind, h1, h2, pyFloatE,
          hz, round3_zero, pySetE, assocSet, dictGet, assocGet, List.find?,
          Bind.bind, Except.bind, Pure.pure, Except.pure]

theorem applyMarking_avFailDict (qt : PyVal) (pm : Option ℚ) :
    applyMarking qt pm avFailDict = .ok avFailDict := by
  cases pm with
  | none =>
    simp [applyMarking, avFailDict, pyGetE_dict, ok_bind, dictGet, assocGet,
      List.find?, pyFloatE, round3_zero, pySetE, assocSet,
      Bind.bind, Except.bind, Pure.pure, Except.pure]
  | some pmv =>
    have hz10 : (0:ℚ) / 10 * pmv = 0 := by ring
    have hz : (0:ℚ) * pmv = 0 := by ring
    by_cases h1 : pyEqStr qt "mcq" = true
    · simp [applyMarking, avFailDict, pyGetE_dict, ok_bind, h1, dictGet, assocGet,
        List.find?, pyTruthy, pySetE, assocSet, Bind.bind, Except.bind, Pure.pure, Except.pure]
    · by_cases h2 : pyEqStr qt "coding" = true
      · simp [applyMarking, avFailDict, pyGetE_dict, ok_bind, h1, h2, pyFloatE,
          hz10, round3_zero, pySetE, assocSet, dictGet, assocGet, List.find?,
          Bind.bind, Except.bind, Pure.pure, Except.pure]
      · simp [applyMarking, avFailDict, pyGetE_dict, ok_bind, h1, h2, pyFloatE,
          hz, round3_zero, pySetE, assocSet, dictGet, assocGet, List.find?,
          Bind.bind, Except.bind, Pure.pure, Except.pure]

theorem scoreOne_remote_failure (qm : List (String × PyVal)) (sec : PyVal)
    (l : List (String × PyVal))
    (hq : pyEqStr (dictGet l "question_type") "mcq" = true ∨
      pyEqStr (dictGet l "question_type") "coding" = true) :
    ∃ e, scoreOne (.error ()) qm sec (.dict l) = .ok e ∧
      pyGetE e "score" = .ok (.num 0) ∧
      pyGetE e "feedback" = .ok (.str "Evaluation failed") := by
  have hrun : scoreOne (.error ()) qm sec (.dict l) = .ok (.dict
      [("question_id", dictGet l "question_id"),
       ("question", questionTextVal qm (dictGet l "question_id") (dictGet l "question_text")),
       ("candidate_answer", answerOf l),
       ("correct_answer", dictGet l "correct_answer"),
       ("section_name", sec),
       ("score", .num 0),
       ("is_correct", .bool false),
       ("feedback", .str "Evaluation failed"),
       ("positive_marking", match posMarkOf qm (dictGet l "question_id") with
         | some q => .num q | Option.none => .none)]) := by
    simp only [scoreOne, pyGetE_dict, ok_bind, resolveAnswer_dict, if_pos hq,
      applyMarking_failDict]
    rfl
  exact ⟨_, hrun, rfl, rfl⟩

theorem scoreOne_av_failure (ev : Except Unit PyVal) (qm : List (String × PyVal))
    (sec : PyVal) (l : List (String × PyVal))
    (hq : pyEqStr (dictGet l "question_type") "audio" = true ∨
      pyEqStr (dictGet l "question_type") "video" = true)
    (hfail : evalAudioVideoE qm (dictGet l "question_id") (dictGet l "question_type")
      (dictGet l "correct_answer") (answerOf l) = .error ()) :
    ∃ e, scoreOne ev qm sec (.dict l) = .ok e ∧
      pyGetE e "score" = .ok (.num 0) ∧
      pyGetE e "feedback" = .ok (.str "Audio/video evaluation failed") := by
  have hnotAB : ¬ (pyEqStr (dictGet l "question_type") "mcq" = true ∨
      pyEqStr (dictGet l "question_type") "coding" = true) := by
    rcases hq with h | h <;> (rw [pyEqStr_true h]; decide)
  have hrun : scoreOne ev qm sec (.dict l) = .ok (.dict
      [("question_id", dictGet l "question_id"),
       ("question", questionTextVal qm (dictGet l "question_id") (dictGet l "question_text")),
       ("candidate_answer", answerOf l),
       ("correct_answer", dictGet l "correct_answer"),
       ("section_name", sec),
       ("score", .num 0),
       ("is_correct", .bool false),
       ("feedback", .str "Audio/video evaluation failed"),
       ("positive_marking", match posMarkOf qm (dictGet l "question_id") with
         | some q => .num q | Option.none => .none)]) := by
    simp only [scoreOne, pyGetE_dict, ok_bind, resolveAnswer_dict, if_neg hnotAB,
      if_pos hq, evalAudioVideo, hfail, applyMarking_avFailDict]
    rfl
  exact ⟨_, hrun, rfl, rfl⟩

/-- C7: a failure while evaluating one response — an `evaluate_answer`
exception for mcq/coding (line 944) or an internal error inside the
audio/video heuristic (line 1056) — produces for that response a result
with score 0 and the fixed failure feedback, and the loop scores each
response independently (entry `i` is exactly `scoreOne` of response `i`),
so no single failure prevents the rest from being scored. -/
theorem scoring_failure_isolated (oracle : ℕ → Except Unit PyVal)
    (qm : List (String × PyVal)) (sec : PyVal) (responses : List PyVal)
    (hr : ∀ r ∈ responses, ∃ lr, r = .dict lr)
    (ho : ∀ i, oracle i = .error () ∨ ∃ d, oracle i = .ok (.dict d)) :
    (∃ entries, submitScore oracle qm sec responses = .ok entries ∧
      entries.length = responses.length ∧
      ∀ i r e, responses.get? i = some r → scoreOne (oracle i) qm sec r = .ok e →
        entries.get? i = some e) ∧
    (∀ lr : List (String × PyVal),
      (pyEqStr (dictGet lr "question_type") "mcq" = true ∨
       pyEqStr (dictGet lr "question_type") "coding" = true) →
      ∃ e, scoreOne (.error ()) qm sec (.dict lr) = .ok e ∧
        pyGetE e "score" = .ok (.num 0) ∧
        pyGetE e "feedback" = .ok (.str "Evaluation failed")) ∧
    (∀ (ev : Except Unit PyVal) (lr : List (String × PyVal)),
      (pyEqStr (dictGet lr "question_type") "audio" = true ∨
       pyEqStr (dictGet lr "question_type") "video" = true) →
      evalAudioVideoE qm (dictGet lr "question_id") (dictGet lr "question_type")
        (dictGet lr "correct_answer") (answerOf lr) = .error () →
      ∃ e, scoreOne ev qm sec (.dict lr) = .ok e ∧
        pyGetE e "score" = .ok (.num 0) ∧
        pyGetE e "feedback" = .ok (.str "Audio/video evaluation failed")) := by
  refine ⟨?_, fun lr hq => scoreOne_remote_failure qm sec lr hq,
    fun ev lr hq hf => scoreOne_av_failure ev qm sec lr hq hf⟩
  have hall : ∀ i r, responses.get? i = some r →
      ∃ e, scoreOne (oracle (0 + i)) qm sec r = .ok e := by
    intro i r hget
    obtain ⟨lr, hlr⟩ := hr r (List.get?_mem hget)
    subst hlr
    exact scoreOne_ok (oracle (0 + i)) qm sec lr (ho (0 + i))
  obtain ⟨out, hout, hlen, hpt⟩ := scoreAll_ok oracle qm sec responses 0 hall
  refine ⟨out, hout, hlen, ?_⟩
  intro i r e hget hscore
  refine hpt i r e hget ?_
  simpa using hscore

/-- C7 witness. -/
theorem scoring_failure_isolated_witness :
    ∃ entries, submitScore (fun _ => .error ()) [] (.str "s")
        [.dict [("question_type", .str "mcq")]] = .ok entries ∧
      entries.length = [PyVal.dict [("question_type", PyVal.str "mcq")]].length ∧
      ∀ i r e, [PyVal.dict [("question_type", PyVal.str "mcq")]].get? i = some r →
        scoreOne ((fun _ => Except.error ()) i) [] (.str "s") r = .ok e →
        entries.get? i = some e :=
  (scoring_failure_isolated (fun _ => .error ()) [] (.str "s")
    [.dict [("question_type", .str "mcq")]]
    (fun r hr => by
      simp only [List.mem_singleton] at hr
      exact ⟨_, hr⟩)
    (fun _ => Or.inl rfl)).1

theorem tasksOfCounts_length (gs name diff : PyVal) (items : List (String × PyVal))
    (ts : List GenTask) (h : tasksOfCounts gs name diff items = .ok ts) :
    ts.length = (items.map (fun p => countOfVal p.2)).sum := by
  induction items generalizing ts with
  | nil =>
    simp only [tasksOfCounts, Pure.pure, Except.pure, Except.ok.injEq] at h
    subst h
    rfl
  | cons p t ih =>
    obtain ⟨qtype, numv⟩ := p
    simp only [tasksOfCounts] at h
    by_cases hc : countOfVal numv = 0
    · rw [if_pos hc] at h
      rw [except_bind_ok] at h
      obtain ⟨y, hy, h⟩ := h
      rw [except_bind_ok] at h
      obtain ⟨rest, hrest, h⟩ := h
      simp only [Pure.pure, Except.pure, Except.ok.injEq] at hy h
      subst hy
      subst h
      have hr := ih rest hrest
      simp [hr, hc]
    · rw [if_neg hc] at h
      rw [except_bind_ok] at h
      obtain ⟨opts, _, h⟩ := h
      rw [except_bind_ok] at h
      obtain ⟨y, hy, h⟩ := h
      rw [except_bind_ok] at h
      obtain ⟨rest, hrest, h⟩ := h
      simp only [Pure.pure, Except.pure, Except.ok.injEq] at hy h
      subst hy
      subst h
      have hr := ih rest hrest
      simp [hr]

theorem tasksOfSkills_length (gs : PyVal) (skills : List PyVal) (ts : List GenTask)
    (h : tasksOfSkills gs skills = .ok ts) :
    ts.length = (skills.map skillRequested).sum := by
  induction skills generalizing ts with
  | nil =>
    simp only [tasksOfSkills, Pure.pure, Except.pure, Except.ok.injEq] at h
    subst h
    rfl
  | cons sk t ih =>
    simp only [tasksOfSkills] at h
    rw [except_bind_ok] at h
    obtain ⟨name, hname, h⟩ := h
    by_cases ht : pyTruthy name = true
    · rw [if_pos ht] at h
      rw [except_bind_ok] at h
      obtain ⟨diff, _, h⟩ := h
      rw [except_bind_ok] at h
      obtain ⟨counts0, hc0, h⟩ := h
      rw [except_bind_ok] at h
      obtain ⟨items, hitems, h⟩ := h
      rw [except_bind_ok] at h
      obtain ⟨cur, hcur, h⟩ := h
      rw [except_bind_ok] at h
      obtain ⟨rest, hrest, h⟩ := h
      simp only [Pure.pure, Except.pure, Except.ok.injEq] at h
      subst h
      have hr := ih rest hrest
      have hcl : cur.length = skillRequested sk := by
        simp only [skillRequested, hname, hc0, hitems]
        rw [if_pos ht]
        exact tasksOfCounts_length gs name diff items cur hcur
      simp [hr, hcl]
    · rw [if_neg ht] at h
      rw [except_bind_ok] at h
      obtain ⟨y, hy, h⟩ := h
      rw [except_bind_ok] at h
      obtain ⟨rest, hrest, h⟩ := h
      simp only [Pure.pure, Except.pure, Except.ok.injEq] at hy h
      subst hy
      subst h
      have hr := ih rest hrest
      have hcl : skillRequested sk = 0 := by
        simp only [skillRequested, hname]
        rw [if_neg ht]
      simp [hr, hcl]

theorem buildTasks_length (payload : PyVal) (specs : List GenTask)
    (h : buildTasks payload = .ok specs) : specs.length = totalRequested payload := by
  simp only [buildTasks] at h
  rw [except_bind_ok] at h
  obtain ⟨skills, hskills, h⟩ := h
  rw [except_bind_ok] at h
  obtain ⟨gs, _, h⟩ := h
  rw [except_bind_ok] at h
  obtain ⟨skillList, hlist, h⟩ := h
  simp only [totalRequested, hskills, hlist]
  exact tasksOfSkills_length gs skillList specs h

theorem genStep_length (specs : List GenTask) (gO : ℕ → ℕ → Option PyVal)
    (hO iO : ℕ → String) (σ : GenState) (i : ℕ) :
    (genStep specs gO hO iO σ i).states.length = σ.states.length := by
  rcases hs : specs.get? i with _ | t <;>
    rcases hst : σ.states.get? i with _ | st <;>
      simp only [genStep, hs, hst] <;>
        try rfl
  rcases ho : st.outcome with _ | o
  · by_cases ha : st.attempts < 5 <;> simp [ho, ha, List.length_set]
  · simp [ho]

theorem genRun_length (specs : List GenTask) (gO : ℕ → ℕ → Option PyVal)
    (hO iO : ℕ → String) (sched : List ℕ) :
    (genRun specs gO hO iO sched).states.length = specs.length := by
  suffices hgen : ∀ σ : GenState,
      (sched.foldl (genStep specs gO hO iO) σ).states.length = σ.states.length by
    rw [genRun, hgen]
    simp [genInit]
  induction sched with
  | nil => intro σ; rfl
  | cons j rest ih =>
    intro σ
    rw [List.foldl_cons, ih, genStep_length]

theorem filterMap_length_of_done (l : List TaskState)
    (h1 : ∀ st ∈ l, st.outcome.isSome = true)
    (h2 : ∀ st ∈ l, (match st.outcome with
      | some .raised => false
      | _ => true) = true) :
    (l.filterMap (fun st =>
      match st.outcome with
      | some (.ok q _) => some q
      | _ => Option.none)).length = l.length := by
  induction l with
  | nil => rfl
  | cons st t ih =>
    have hs := h1 st (by simp)
    have hraised := h2 st (by simp)
    cases ho : st.outcome with
    | none => rw [ho] at hs; simp at hs
    | some o =>
      cases o with
      | raised => rw [ho] at hraised; simp at hraised
      | ok q n =>
        simp only [List.filterMap_cons, ho, List.length_cons]
        rw [ih (fun s hsm => h1 s (by simp [hsm])) (fun s hsm => h2 s (by simp [hsm]))]

/-- C1 (amended): when the tasks can be built and every task completes
WITHOUT raising, any complete interleaved run returns exactly the total
number of requested instances (sum of the non-negative per-type counts
over the skills with a truthy name).  The counterexample shows the
"never fewer" part of the claim fails when a task raises. -/
theorem generate_questions_count (payload : PyVal) (specs : List GenTask)
    (gO : ℕ → ℕ → Option PyVal) (hO iO : ℕ → String) (sched : List ℕ)
    (hb : buildTasks payload = .ok specs)
    (h1 : allDone (genRun specs gO hO iO sched) = true)
    (h2 : noneRaised (genRun specs gO hO iO sched) = true) :
    (genResults (genRun specs gO hO iO sched)).length = totalRequested payload := by
  rw [allDone, List.all_eq_true] at h1
  rw [noneRaised, List.all_eq_true] at h2
  rw [genResults, filterMap_length_of_done _ h1 h2, genRun_length]
  exact buildTasks_length payload specs hb

/-- C1 witness: a run where the single task accepts its first attempt. -/
theorem generate_questions_count_witness :
    (genResults (genRun c1Specs
      (fun _ _ => some (.dict [("question", .str "q"), ("options", .list [.str "a"]),
        ("correct_answer", .str "A")]))
      (fun _ => "aaaaaa") (fun _ => "id") [0])).length = totalRequested c1Payload :=
  generate_questions_count c1Payload c1Specs
    (fun _ _ => some (.dict [("question", .str "q"), ("options", .list [.str "a"]),
      ("correct_answer", .str "A")]))
    (fun _ => "aaaaaa") (fun _ => "id") [0]
    (by with_unfolding_all rfl) (by with_unfolding_all rfl) (by with_unfolding_all rfl)

/-- C1 counterexample: one requested mcq question whose remote output has
a numeric option (reachable through `generate_question`'s normalization,
last conjunct): `" ".join(options)` raises `TypeError`, the future's
exception is caught at line 136 and the question is skipped — the
completed run returns 0 questions, not 1. -/
theorem generate_count_counterexample :
    totalRequested c1Payload = 1 ∧
    allDone c1Run = true ∧
    (genResults c1Run).length = 0 ∧
    llmNormalizeOutput "mcq" (.dict [("prompt", .str "q"), ("options", .list [.num 1]),
        ("answer", .str "A")]) =
      .ok (.dict [("question", .str "q"), ("options", .list [.num 1]),
        ("correct_answer", .str "A")]) := by
  refine ⟨by with_unfolding_all rfl, by with_unfolding_all rfl,
    by with_unfolding_all rfl, by with_unfolding_all rfl⟩

theorem isWs_toLower (c : Char) : isWs (Char.toLower c) = isWs c := by
  unfold Char.toLower
  by_cases h : Char.toNat c ≥ 65 ∧ Char.toNat c ≤ 90
  · rw [if_pos h]
    obtain ⟨h1, h2⟩ := h
    have hc : isWs c = false := by
      rw [isWs, decide_eq_false_iff_not]
      rintro (rfl | rfl | rfl | rfl) <;> exact absurd h1 (by decide)
    rw [hc]
    set m := Char.toNat c with hm
    rw [isWs, decide_eq_false_iff_not]
    interval_cases m <;> decide
  · rw [if_neg h]

theorem dropWhile_idem_ws (l : List Char) :
    (l.dropWhile isWs).dropWhile isWs = l.dropWhile isWs := by
  induction l with
  | nil => rfl
  | cons c t ih =>
    by_cases hc : isWs c <;> simp [List.dropWhile_cons, hc, ih]

theorem dropWhile_map_toLower (l : List Char) :
    (l.map Char.toLower).dropWhile isWs = (l.dropWhile isWs).map Char.toLower := by
  induction l with
  | nil => rfl
  | cons c t ih =>
    by_cases hc : isWs c <;>
      simp [List.dropWhile_cons, isWs_toLower, hc, ih]

theorem trimRight_map_toLower (l : List Char) :
    trimRightChars (l.map Char.toLower) = (trimRightChars l).map Char.toLower := by
  induction l with
  | nil => rfl
  | cons c t ih =>
    simp only [List.map_cons, trimRightChars, ih]
    by_cases hr : (trimRightChars t).isEmpty
    · have hr' : ((trimRightChars t).map Char.toLower).isEmpty = true := by
        rw [List.isEmpty_iff] at hr ⊢
        simp [hr]
      rw [if_pos hr', if_pos hr]
      by_cases hw : isWs c
      · simp [isWs_toLower, hw]
      · simp [isWs_toLower, hw]
    · have hne : trimRightChars t ≠ [] := fun h => hr (by simp [h, List.isEmpty_iff])
      have hr' : ¬((trimRightChars t).map Char.toLower).isEmpty = true := by
        simp [List.isEmpty_iff, hne]
      rw [if_neg hr', if_neg hr]
      simp

theorem trimRight_idem (l : List Char) :
    trimRightChars (trimRightChars l) = trimRightChars l := by
  induction l with
  | nil => rfl
  | cons c t ih =>
    simp only [trimRightChars]
    by_cases hr : (trimRightChars t).isEmpty
    · rw [if_pos hr]
      by_cases hw : isWs c
      · simp [hw, trimRightChars]
      · simp [hw, trimRightChars]
    · rw [if_neg hr]
      simp only [trimRightChars, ih]
      rw [if_neg hr]

theorem trimRight_dropWhile (l : List Char) :
    trimRightChars (l.dropWhile isWs) = (trimRightChars l).dropWhile isWs := by
  induction l with
  | nil => rfl
  | cons c t ih =>
    by_cases hw : isWs c
    · rw [List.dropWhile_cons_of_pos hw]
      rw [ih]
      by_cases hr : (trimRightChars t).isEmpty
      · rw [List.isEmpty_iff] at hr
        simp [trimRightChars, hr, hw]
      · have hne : trimRightChars t ≠ [] := fun h => hr (by simp [h, List.isEmpty_iff])
        simp only [trimRightChars]
        rw [if_neg hr]
        rw [List.dropWhile_cons_of_pos hw]
    · rw [List.dropWhile_cons_of_neg hw]
      by_cases hr : (trimRightChars t).isEmpty
      · simp only [trimRightChars]
        rw [if_pos hr]
        simp [hw, List.dropWhile_cons]
      · simp only [trimRightChars]
        rw [if_neg hr]
        simp [hw, List.dropWhile_cons]

theorem trimChars_idem (l : List Char) : trimChars (trimChars l) = trimChars l := by
  unfold trimChars trimLeftChars
  rw [trimRight_dropWhile, trimRight_idem, dropWhile_idem_ws]

theorem trimChars_map_toLower (l : List Char) :
    trimChars (l.map Char.toLower) = (trimChars l).map Char.toLower := by
  unfold trimChars trimLeftChars
  rw [trimRight_map_toLower, dropWhile_map_toLower]

theorem trimRight_append_ws (l : List Char) (c : Char) (hc : isWs c = true) :
    trimRightChars (l ++ [c]) = trimRightChars l := by
  induction l with
  | nil => simp [trimRightChars, hc]
  | cons a t ih =>
    rw [List.cons_append]
    simp only [trimRightChars]
    rw [ih]

theorem normList_trim (d : List Char) : normList (trimChars d) = normList d := by
  unfold normList
  rw [trimChars_map_toLower, trimChars_idem, trimChars_map_toLower]

theorem normList_append_ws (d : List Char) (c : Char) (hc : isWs c = true) :
    normList (d ++ [c]) = normList d := by
  unfold normList
  rw [List.map_append]
  have h : (trimChars ((d.map Char.toLower) ++ [c].map Char.toLower)) =
      trimChars (d.map Char.toLower) := by
    unfold trimChars trimLeftChars
    simp only [List.map_cons, List.map_nil]
    rw [trimRight_append_ws _ _ (by rw [isWs_toLower]; exact hc)]
  rw [h]

theorem str_data_append (a b : String) : (a ++ b).data = a.data ++ b.data := rfl

theorem suffix_ne (b hex : String) : (b ++ suffixOf hex) ≠ "" := by
  intro h
  have hd : (b ++ suffixOf hex).data = [] := congrArg String.data h
  rw [suffixOf] at hd
  simp only [str_data_append] at hd
  rcases List.append_eq_nil.mp hd with ⟨h1, h2⟩
  rcases List.append_eq_nil.mp h2 with ⟨h3, h4⟩
  rcases List.append_eq_nil.mp h3 with ⟨h5, h6⟩
  exact absurd h5 (by decide)

theorem tagged_isEmpty (b hex : String) : (b ++ suffixOf hex).isEmpty = false := by
  rw [Bool.eq_false_iff]
  intro hc
  exact suffix_ne b hex ((String.isEmpty_iff _).1 hc)

theorem normalizeText_str (x : String) :
    normalizeText (.str x) = String.mk (normList x.data) := by
  by_cases h : x = ""
  · subst h; rfl
  · have hie : x.isEmpty = false := by
      rw [Bool.eq_false_iff]
      intro hc
      exact h ((String.isEmpty_iff _).1 hc)
    have ht : pyTruthy (.str x) = true := by simp [pyTruthy, hie]
    simp [normalizeText, ht, pyStr]

theorem normStrip (s : String) :
    normalizeText (.str (pyStrip s)) = normalizeText (.str s) := by
  rw [normalizeText_str, normalizeText_str]
  show String.mk (normList (trimChars s.data)) = String.mk (normList s.data)
  rw [normList_trim]

theorem normPad (s : String) :
    normalizeText (.str (s ++ " ")) = normalizeText (.str s) := by
  rw [normalizeText_str, normalizeText_str]
  show String.mk (normList (s.data ++ [' '])) = String.mk (normList s.data)
  rw [normList_append_ws s.data ' ' (by decide)]

theorem append_empty_str (s : String) : s ++ "" = s := by
  apply String.ext
  show s.data ++ [] = s.data
  simp

theorem pyGetDE_dict (l : List (String × PyVal)) (k : String) (d : PyVal) :
    pyGetDE (.dict l) k d = .ok ((assocGet l k).getD d) := rfl

theorem buildRep_forced (qtype b hex : String) :
    ∃ rep, buildRepE qtype
        (.dict [("prompt", .str (b ++ suffixOf hex)), ("type", .str qtype)]) =
          .ok rep ∧
      normalizeText rep = normalizeText (.str (b ++ suffixOf hex)) := by
  have hie := tagged_isEmpty b hex
  by_cases h1 : qtype = "mcq"
  · subst h1
    refine ⟨.str (pyStrip ((b ++ suffixOf hex) ++ " " ++ "")), ?_, ?_⟩
    · simp +decide [buildRepE, pyGetE, pyGetDE, assocGet, List.find?, pyOr,
        pyTruthy, hie, pyJoinE, listStrsE, pyStr, Bind.bind, Except.bind,
        Pure.pure, Except.pure, Option.getD, String.intercalate]
    · rw [append_empty_str, normStrip, normPad]
  · by_cases h2 : qtype = "coding"
    · subst h2
      refine ⟨.str (pyStrip ((((b ++ suffixOf hex) ++ " ") ++ "") ++ " " ++ "")),
        ?_, ?_⟩
      · simp +decide [buildRepE, pyGetE, pyGetDE, assocGet, List.find?, pyOr,
          pyTruthy, hie, pyStr, Bind.bind, Except.bind,
          Pure.pure, Except.pure, Option.getD]
      · rw [append_empty_str, append_empty_str, normStrip, normPad, normPad]
    · refine ⟨.str (b ++ suffixOf hex), ?_, rfl⟩
      simp +decide [buildRepE, h1, h2, pyGetE, pyGetDE, assocGet, List.find?,
        pyOr, pyTruthy, hie, pyStr, Bind.bind, Except.bind,
        Pure.pure, Except.pure, Option.getD]

theorem questionNorm_mkQuestion (qid : String) (t : GenTask) (content rep : PyVal)
    (hb : buildRepE t.qtype content = .ok rep) :
    questionNorm (mkQuestion qid t content) = some (normalizeText rep) := by
  simp +decide [questionNorm, mkQuestion, pyGetE, assocGet, List.find?, hb]

theorem mem_seenInsert_self (s : String) (seen : List String) :
    s ∈ seenInsert s seen := by
  unfold seenInsert
  by_cases h : s ∈ seen
  · rw [if_pos h]; exact h
  · rw [if_neg h]; exact List.mem_cons_self s seen

theorem mem_seenInsert_of_mem (s x : String) (seen : List String) (h : x ∈ seen) :
    x ∈ seenInsert s seen := by
  unfold seenInsert
  by_cases hs : s ∈ seen
  · rw [if_pos hs]; exact h
  · rw [if_neg hs]; exact List.mem_cons_of_mem s h

theorem taskIter_spec (t : GenTask) (qid : String) (q0 : Option PyVal)
    (seen : List String) (st : TaskState) (h0 : st.outcome = Option.none) :
    ((taskIter t qid q0 seen st).1 = seen ∧
      ((taskIter t qid q0 seen st).2.outcome = Option.none ∨
       (taskIter t qid q0 seen st).2.outcome = some .raised)) ∨
    (∃ qData rep, buildRepE t.qtype qData = .ok rep ∧
      normalizeText rep ∉ seen ∧
      (taskIter t qid q0 seen st).1 = seenInsert (normalizeText rep) seen ∧
      (taskIter t qid q0 seen st).2.outcome =
        some (.ok (mkQuestion qid t qData) (normalizeText rep))) := by
  rcases q0 with _ | v <;>
    simp only [taskIter] <;>
    [rcases hb : buildRepE t.qtype (fallbackContent t) with _ | rep;
     rcases hb : buildRepE t.qtype v with _ | rep] <;>
    simp only [hb]
  · exact Or.inl ⟨by trivial, Or.inr (by trivial)⟩
  · split_ifs with h1 h2
    · exact Or.inl ⟨by trivial, Or.inl (by simp [h0])⟩
    · exact Or.inl ⟨by trivial, Or.inl (by simp [h0])⟩
    · exact Or.inr ⟨fallbackContent t, rep, hb, h2, by trivial, by trivial⟩
  · exact Or.inl ⟨by trivial, Or.inr (by trivial)⟩
  · split_ifs with h1 h2
    · exact Or.inl ⟨by trivial, Or.inl (by simp [h0])⟩
    · exact Or.inl ⟨by trivial, Or.inl (by simp [h0])⟩
    · exact Or.inr ⟨v, rep, hb, h2, by trivial, by trivial⟩

theorem taskForced_spec (t : GenTask) (qid hex : String) (seen : List String)
    (st : TaskState) :
    ((taskForced t qid hex seen st).1 = seen ∧
      (taskForced t qid hex seen st).2.1.outcome = some .raised ∧
      (taskForced t qid hex seen st).2.2 = false) ∨
    (∃ b,
      (taskForced t qid hex seen st).1 =
        seenInsert (normalizeText (.str (b ++ suffixOf hex))) seen ∧
      (taskForced t qid hex seen st).2.1.outcome = some (.ok
        (mkQuestion qid t (.dict [("prompt", .str (b ++ suffixOf hex)),
          ("type", .str t.qtype)]))
        (normalizeText (.str (b ++ suffixOf hex)))) ∧
      (taskForced t qid hex seen st).2.2 =
        decide (normalizeText (.str (b ++ suffixOf hex)) ∈ seen)) := by
  simp only [taskForced]
  rcases hb : pyOr st.lastRep (.str (t.qtype ++ " question about " ++ pyStr t.name))
    with _ | s | q | bb | l | l <;> simp only [hb]
  · exact Or.inl ⟨by trivial, by trivial, by trivial⟩
  · exact Or.inr ⟨s, by trivial, by trivial, by trivial⟩
  · exact Or.inl ⟨by trivial, by trivial, by trivial⟩
  · exact Or.inl ⟨by trivial, by trivial, by trivial⟩
  · exact Or.inl ⟨by trivial, by trivial, by trivial⟩
  · exact Or.inl ⟨by trivial, by trivial, by trivial⟩

theorem genInv_skip (σ σ' : GenState) (j : ℕ) (st' : TaskState)
    (hInv : GenInv σ)
    (hseen : σ'.seen = σ.seen)
    (hstates : σ'.states = σ.states.set j st')
    (hout : ∀ q n, ¬ st'.outcome = some (.ok q n)) :
    GenInv σ' := by
  obtain ⟨hP, hR⟩ := hInv
  constructor
  · intro i k si sk hik hgi hgk qi ni qk nk hoi hok
    rw [hstates] at hgi hgk
    by_cases hi : i = j
    · subst hi
      have hjlt : i < σ.states.length := by
        rcases List.get?_eq_some.1 hgi with ⟨hl, _⟩
        simpa using hl
      have hsi : si = st' := by
        have h2 : (σ.states.set i st').get? i = some st' :=
          List.get?_set_eq_of_lt st' hjlt
        rw [h2] at hgi
        exact (Option.some_inj.1 hgi).symm
      exact absurd (hsi ▸ hoi) (hout qi ni)
    · by_cases hk : k = j
      · subst hk
        have hjlt : k < σ.states.length := by
          rcases List.get?_eq_some.1 hgk with ⟨hl, _⟩
          simpa using hl
        have hsk : sk = st' := by
          have h2 : (σ.states.set k st').get? k = some st' :=
            List.get?_set_eq_of_lt st' hjlt
          rw [h2] at hgk
          exact (Option.some_inj.1 hgk).symm
        exact absurd (hsk ▸ hok) (hout qk nk)
      · have hgi' : σ.states.get? i = some si := by
          rw [List.get?_eq_getElem?] at hgi ⊢
          rwa [List.getElem?_set_ne (fun h => hi h.symm)] at hgi
        have hgk' : σ.states.get? k = some sk := by
          rw [List.get?_eq_getElem?] at hgk ⊢
          rwa [List.getElem?_set_ne (fun h => hk h.symm)] at hgk
        exact hP i k si sk hik hgi' hgk' qi ni qk nk hoi hok
  · intro s hmem q n hoo
    rw [hseen]
    rw [hstates] at hmem
    rcases List.mem_or_eq_of_mem_set hmem with hm | he
    · exact hR s hm q n hoo
    · subst he
      exact absurd hoo (hout q n)

theorem genInv_accept (σ σ' : GenState) (j : ℕ) (st' : TaskState) (norm : String)
    (hInv : GenInv σ)
    (hseen : σ'.seen = seenInsert norm σ.seen)
    (hstates : σ'.states = σ.states.set j st')
    (hnotin : norm ∉ σ.seen)
    (hout : ∀ q n, st'.outcome = some (.ok q n) →
      n = norm ∧ questionNorm q = some norm) :
    GenInv σ' := by
  obtain ⟨hP, hR⟩ := hInv
  constructor
  · intro i k si sk hik hgi hgk qi ni qk nk hoi hok
    rw [hstates] at hgi hgk
    by_cases hi : i = j
    · subst hi
      have hjlt : i < σ.states.length := by
        rcases List.get?_eq_some.1 hgi with ⟨hl, _⟩
        simpa using hl
      have hsi : si = st' := by
        have h2 : (σ.states.set i st').get? i = some st' :=
          List.get?_set_eq_of_lt st' hjlt
        rw [h2] at hgi
        exact (Option.some_inj.1 hgi).symm
      have hgk' : σ.states.get? k = some sk := by
        rw [List.get?_eq_getElem?] at hgk ⊢
        rwa [List.getElem?_set_ne hik] at hgk
      obtain ⟨hni, _⟩ := hout qi ni (hsi ▸ hoi)
      have hmemk := hR sk (List.get?_mem hgk') qk nk hok
      subst hni
      intro he
      exact hnotin (by rw [he]; exact hmemk.1)
    · by_cases hk : k = j
      · subst hk
        have hjlt : k < σ.states.length := by
          rcases List.get?_eq_some.1 hgk with ⟨hl, _⟩
          simpa using hl
        have hsk : sk = st' := by
          have h2 : (σ.states.set k st').get? k = some st' :=
            List.get?_set_eq_of_lt st' hjlt
          rw [h2] at hgk
          exact (Option.some_inj.1 hgk).symm
        have hgi' : σ.states.get? i = some si := by
          rw [List.get?_eq_getElem?] at hgi ⊢
          rwa [List.getElem?_set_ne (fun h => hi h.symm)] at hgi
        obtain ⟨hnk, _⟩ := hout qk nk (hsk ▸ hok)
        have hmemi := hR si (List.get?_mem hgi') qi ni hoi
        subst hnk
        intro he
        exact hnotin (by rw [← he]; exact hmemi.1)
      · have hgi' : σ.states.get? i = some si := by
          rw [List.get?_eq_getElem?] at hgi ⊢
          rwa [List.getElem?_set_ne (fun h => hi h.symm)] at hgi
        have hgk' : σ.states.get? k = some sk := by
          rw [List.get?_eq_getElem?] at hgk ⊢
          rwa [List.getElem?_set_ne (fun h => hk h.symm)] at hgk
        exact hP i k si sk hik hgi' hgk' qi ni qk nk hoi hok
  · intro s hmem q n hoo
    rw [hseen]
    rw [hstates] at hmem
    rcases List.mem_or_eq_of_mem_set hmem with hm | he
    · obtain ⟨h1, h2⟩ := hR s hm q n hoo
      exact ⟨mem_seenInsert_of_mem norm n σ.seen h1, h2⟩
    · subst he
      obtain ⟨hn, hq⟩ := hout q n hoo
      subst hn
      exact ⟨mem_seenInsert_self n σ.seen, hq⟩

theorem genStep_flag_mono (specs : List GenTask) (gO : ℕ → ℕ → Option PyVal)
    (hO iO : ℕ → String) (σ : GenState) (j : ℕ)
    (h : σ.forcedCollision = true) :
    (genStep specs gO hO iO σ j).forcedCollision = true := by
  rcases hs : specs.get? j with _ | t <;>
    rcases hst : σ.states.get? j with _ | st <;>
      simp only [genStep, hs, hst] <;> try exact h
  rcases ho : st.outcome with _ | o
  · by_cases ha : st.attempts < 5 <;> simp [ho, ha, h]
  · simp [ho, h]

theorem genStep_flag_back (specs : List GenTask) (gO : ℕ → ℕ → Option PyVal)
    (hO iO : ℕ → String) (σ : GenState) (j : ℕ)
    (h : (genStep specs gO hO iO σ j).forcedCollision = false) :
    σ.forcedCollision = false := by
  by_contra hc
  rw [Bool.not_eq_false] at hc
  rw [genStep_flag_mono specs gO hO iO σ j hc] at h
  cases h

theorem genFold_flag_back (specs : List GenTask) (gO : ℕ → ℕ → Option PyVal)
    (hO iO : ℕ → String) :
    ∀ (sched : List ℕ) (σ : GenState),
      (sched.foldl (genStep specs gO hO iO) σ).forcedCollision = false →
      σ.forcedCollision = false := by
  intro sched
  induction sched with
  | nil => intro σ h; exact h
  | cons j rest ih =>
    intro σ h
    rw [List.foldl_cons] at h
    exact genStep_flag_back specs gO hO iO σ j (ih _ h)

theorem genStep_inv (specs : List GenTask) (gO : ℕ → ℕ → Option PyVal)
    (hO iO : ℕ → String) (σ : GenState) (j : ℕ)
    (hInv : GenInv σ)
    (hflag : (genStep specs gO hO iO σ j).forcedCollision = false) :
    GenInv (genStep specs gO hO iO σ j) := by
  rcases hs : specs.get? j with _ | t <;>
    rcases hst : σ.states.get? j with _ | st <;>
      simp only [genStep, hs, hst] <;> try exact hInv
  rcases ho : st.outcome with _ | o
  · by_cases ha : st.attempts < 5
    · simp only [ho, ha, if_true]
      rcases taskIter_spec t (iO j) (gO j st.attempts) σ.seen st ho with
        ⟨hseen, hout⟩ | ⟨qData, rep, hb, hnotin, hseen, hout⟩
      · refine genInv_skip σ _ j _ hInv hseen rfl ?_
        intro q n hc
        rcases hout with h1 | h1 <;> rw [h1] at hc <;> simp at hc
      · refine genInv_accept σ _ j _ (normalizeText rep) hInv hseen rfl hnotin ?_
        intro q n hc
        rw [hout] at hc
        injection hc with hc2
        injection hc2 with hq hn
        refine ⟨hn.symm, ?_⟩
        rw [← hq]
        exact questionNorm_mkQuestion (iO j) t qData rep hb
    · simp only [ho, ha, if_false]
      have hflag' : (σ.forcedCollision ||
          (taskForced t (iO j) (hO j) σ.seen st).2.2) = false := by
        have h2 := hflag
        simp only [genStep, hs, hst, ho, ha, if_false] at h2
        exact h2
      have hbit : (taskForced t (iO j) (hO j) σ.seen st).2.2 = false :=
        (Bool.or_eq_false_iff.mp hflag').2
      rcases taskForced_spec t (iO j) (hO j) σ.seen st with
        ⟨hseen, hout, _⟩ | ⟨b, hseen, hout, hcol⟩
      · refine genInv_skip σ _ j _ hInv hseen rfl ?_
        intro q n hc
        rw [hout] at hc
        simp at hc
      · have hnotin : normalizeText (.str (b ++ suffixOf (hO j))) ∉ σ.seen := by
          rw [hcol] at hbit
          exact of_decide_eq_false hbit
        obtain ⟨rep, hbr, hnr⟩ := buildRep_forced t.qtype b (hO j)
        refine genInv_accept σ _ j _
          (normalizeText (.str (b ++ suffixOf (hO j)))) hInv hseen rfl hnotin ?_
        intro q n hc
        rw [hout] at hc
        injection hc with hc2
        injection hc2 with hq hn
        refine ⟨hn.symm, ?_⟩
        rw [← hq, questionNorm_mkQuestion (iO j) t _ rep hbr, hnr]
  · simp only [ho]
    exact hInv

theorem genFold_inv (specs : List GenTask) (gO : ℕ → ℕ → Option PyVal)
    (hO iO : ℕ → String) :
    ∀ (sched : List ℕ) (σ : GenState), GenInv σ →
      (sched.foldl (genStep specs gO hO iO) σ).forcedCollision = false →
      GenInv (sched.foldl (genStep specs gO hO iO) σ) := by
  intro sched
  induction sched with
  | nil => intro σ h _; exact h
  | cons j rest ih =>
    intro σ h hflag
    rw [List.foldl_cons] at hflag ⊢
    have h1 : (genStep specs gO hO iO σ j).forcedCollision = false :=
      genFold_flag_back specs gO hO iO rest _ hflag
    exact ih _ (genStep_inv specs gO hO iO σ j h h1) hflag

theorem genInv_init (specs : List GenTask) : GenInv (genInit specs) := by
  constructor
  · intro i k si sk hik hgi hgk qi ni qk nk hoi hok
    have hmem : si ∈ specs.map (fun _ => initTaskState) := List.get?_mem hgi
    rcases List.mem_map.1 hmem with ⟨_, _, hsi⟩
    rw [← hsi] at hoi
    simp [initTaskState] at hoi
  · intro s hmem q n hoo
    rcases List.mem_map.1 hmem with ⟨_, _, hsi⟩
    rw [← hsi] at hoo
    simp [initTaskState] at hoo

theorem genInv_results_nodup (σ : GenState) (hInv : GenInv σ) :
    ((genResults σ).map questionNorm).Nodup := by
  obtain ⟨hP, hR⟩ := hInv
  have hchar : ∀ (st : TaskState) (q : PyVal),
      (match st.outcome with
        | some (.ok q2 _) => some q2
        | _ => Option.none) = some q →
      ∃ n, st.outcome = some (.ok q n) := by
    intro st q h
    rcases ho : st.outcome with _ | o
    · simp [ho] at h
    · rcases o with ⟨q2, n⟩ | _
      · simp only [ho, Option.some.injEq] at h
        exact ⟨n, by rw [h]⟩
      · simp [ho] at h
  have hpw1 : σ.states.Pairwise (fun st st' =>
      ∀ q ∈ (match st.outcome with
        | some (.ok q2 _) => some q2
        | _ => Option.none),
      ∀ q' ∈ (match st'.outcome with
        | some (.ok q2 _) => some q2
        | _ => Option.none),
      questionNorm q ≠ questionNorm q') := by
    rw [List.pairwise_iff_get]
    intro i j hij q hq q' hq'
    obtain ⟨n, ho1⟩ := hchar _ _ (Option.mem_def.mp hq)
    obtain ⟨n', ho2⟩ := hchar _ _ (Option.mem_def.mp hq')
    have hgi : σ.states.get? i.val = some (σ.states.get i) :=
      List.get?_eq_get i.isLt
    have hgj : σ.states.get? j.val = some (σ.states.get j) :=
      List.get?_eq_get j.isLt
    have hne : n ≠ n' :=
      hP i.val j.val _ _ (Nat.ne_of_lt hij) hgi hgj q n q' n' ho1 ho2
    have hq1 : questionNorm q = some n := (hR _ (List.get?_mem hgi) q n ho1).2
    have hq2 : questionNorm q' = some n' := (hR _ (List.get?_mem hgj) q' n' ho2).2
    rw [hq1, hq2]
    simp [hne]
  have hpw2 : (σ.states.filterMap (fun st =>
      match st.outcome with
      | some (.ok q _) => some q
      | _ => Option.none)).Pairwise
        (fun q q' => questionNorm q ≠ questionNorm q') :=
    List.pairwise_filterMap.2 hpw1
  have hpw3 := List.Pairwise.map questionNorm (fun a b hr => hr) hpw2
  exact hpw3

/-- C2 (corrected).  In any interleaved run of `generate_questions` in
which no forced-variant insertion collided with an already-recorded
normalized text (`forcedCollision = false`), the returned questions have
pairwise-distinct normalized representative texts: the list of their
`questionNorm` values has no duplicate.  The original claim, which also
covered runs where a forced variant collides, is refuted by
`dedup_forced_collision_counterexample`: the forced path (lines 105-115)
inserts `base + suffix` into `seen_texts` without checking membership, so
a forced question can duplicate an accepted one. -/
theorem dedup_invariant (specs : List GenTask) (gO : ℕ → ℕ → Option PyVal)
    (hO iO : ℕ → String) (sched : List ℕ)
    (hflag : (genRun specs gO hO iO sched).forcedCollision = false) :
    ((genResults (genRun specs gO hO iO sched)).map questionNorm).Nodup := by
  have h1 : GenInv (genRun specs gO hO iO sched) := by
    rw [genRun] at hflag ⊢
    exact genFold_inv specs gO hO iO sched (genInit specs) (genInv_init specs)
      hflag
  exact genInv_results_nodup _ h1

/-- Witness for C2: a two-task run with no forced collision; the theorem
yields distinct normalized texts for the two returned questions. -/
theorem dedup_invariant_witness :
    (genRun c2Specs c2Oracle (fun _ => "abc123") (fun i => toString i)
      [0, 1]).forcedCollision = false ∧
    ((genResults (genRun c2Specs c2Oracle (fun _ => "abc123")
      (fun i => toString i) [0, 1])).map questionNorm).Nodup :=
  ⟨by with_unfolding_all rfl,
   dedup_invariant c2Specs c2Oracle (fun _ => "abc123") (fun i => toString i)
     [0, 1] (by with_unfolding_all rfl)⟩

/-- Counterexample to C2 as stated: in `c2Run` task 2 exhausts its five
attempts on the duplicate text `"x"` and is forced with the uuid hex
`"abc123"`; its tagged text normalizes to `"x variant abc123"`, which
equals the normalized text of task 0's accepted question, so two returned
questions share a normalized representative text. -/
theorem dedup_forced_collision_counterexample :
    c2Run.forcedCollision = true ∧
    (genResults c2Run).map questionNorm =
      [some "x variant abc123", some "x", some "x variant abc123"] ∧
    ¬ ((genResults c2Run).map questionNorm).Nodup := by
  have he : (genResults c2Run).map questionNorm =
      [some "x variant abc123", some "x", some "x variant abc123"] := by
    with_unfolding_all rfl
  refine ⟨by with_unfolding_all rfl, he, ?_⟩
  rw [he]
  decide
